import Mathlib

/-!
Verification development for the `webCrawler/unified_site_snapshot.py` snapshot
tool.  The Python program is shallowly embedded: every pure helper becomes a
Lean function translated line by line from the source, stateful code threads an
explicit `St` record, and the network / mimetype / hash collaborators become an
explicit `Env` oracle record (the spec lists them as external collaborators).
Machine strings are Lean `String`s (`List Char` underneath); the ASCII
operations used by the program (`lower`, `startswith`, `in`, slicing) are ASCII
faithful.  Recursive functions that the source runs on arbitrary inputs
(`map_asset` / `rewrite_css_urls`, the crawl loop) take a fuel argument; a
sufficiency theorem shows the fuel bound used by the total wrappers never runs
out, which is exactly the termination argument the spec describes.
-/

namespace USS

/-! ## Basic string machinery (ASCII models of the Python `str` operations) -/

def lowerStr (s : String) : String := String.mk (s.data.map Char.toLower)

/-- Python `s.startswith(pre)`. -/
def startsW (s pre : String) : Bool := pre.data.isPrefixOf s.data

/-- Python `s.endswith(suf)`. -/
def endsW (s suf : String) : Bool := suf.data.reverse.isPrefixOf s.data.reverse

/-- First occurrence split: `splitAtChar c l = some (a, b)` iff `l = a ++ c :: b`
and `c ∉ a`.  Models Python `s.split(c, 1)` / `s.find(c)`. -/
def splitAtChar (c : Char) : List Char → Option (List Char × List Char)
  | [] => none
  | x :: xs =>
    if x = c then some ([], xs)
    else (splitAtChar c xs).map (fun p => (x :: p.1, p.2))

def splitAllAux (c : Char) : List Char → List Char → List (List Char)
  | [], acc => [acc.reverse]
  | x :: xs, acc =>
    if x = c then acc.reverse :: splitAllAux c xs [] else splitAllAux c xs (x :: acc)

/-- Python `s.split(c)` (keeping empty parts). -/
def splitAll (c : Char) (l : List Char) : List (List Char) := splitAllAux c l []

def joinWith (c : Char) : List (List Char) → List Char
  | [] => []
  | [x] => x
  | x :: y :: xs => x ++ c :: joinWith c (y :: xs)

def joinWithL (sep : List Char) : List (List Char) → List Char
  | [] => []
  | [x] => x
  | x :: y :: xs => x ++ sep ++ joinWithL sep (y :: xs)

/-- Python `sub in s` (substring containment) on char lists. -/
def subIn (sub : List Char) : List Char → Bool
  | [] => sub.isEmpty
  | l@(_ :: t) => sub.isPrefixOf l || subIn sub t

def strIn (sub s : String) : Bool := subIn sub.data s.data

/-- Python `s.split()` — split on whitespace runs, dropping empties. -/
def wordsL (l : List Char) : List (List Char) :=
  (splitAllAux ' ' (l.map (fun c => if c = '\t' ∨ c = '\n' ∨ c = '\r' then ' ' else c)) []).filter
    (fun w => ¬ w.isEmpty)

def strWords (s : String) : List String := (wordsL s.data).map (fun l => String.mk l)

/-- Python `s.strip()` (ASCII whitespace). -/
def trimStr (s : String) : String :=
  String.mk (((s.data.dropWhile Char.isWhitespace).reverse.dropWhile Char.isWhitespace).reverse)

/-- Python `sep.join(parts)` on strings. -/
def joinSep (sep : String) (l : List String) : String :=
  String.mk (joinWithL sep.data (l.map String.data))

/-! ## `urllib.parse` embedding (CPython `urlsplit`, `urlunsplit`, `urlparse`,
`urljoin`) and `posixpath.normpath`.  Translated from the stdlib sources the
program imports; IPv6-bracket and netloc NFKC validation (which only raise on
exotic inputs) are not modelled. -/

structure SplitResult where
  scheme : String
  netloc : String
  path : String
  query : String
  fragment : String
deriving Repr, DecidableEq, Inhabited

def schemeChar (c : Char) : Bool := c.isAlpha || c.isDigit || c = '+' || c = '-' || c = '.'

/-- The WHATWG unsafe-byte removal CPython applies first (`\t`, `\r`, `\n`). -/
def removeUnsafe (l : List Char) : List Char :=
  l.filter (fun c => ¬ (c = '\t' ∨ c = '\r' ∨ c = '\n'))

def urlsplitL (scheme0 url0 : List Char) : SplitResult :=
  let url := removeUnsafe url0
  let dflt := removeUnsafe scheme0
  let (schemeL, url) :=
    match splitAtChar ':' url with
    | some (before, after) =>
      if before ≠ [] ∧ (before.headD ' ').isAlpha ∧ before.all schemeChar
      then (before.map Char.toLower, after)
      else (dflt, url)
    | none => (dflt, url)
  let (netloc, url) :=
    if url.take 2 = ['/', '/'] then
      let rest := url.drop 2
      let nl := rest.takeWhile (fun c => ¬ (c = '/' ∨ c = '?' ∨ c = '#'))
      (nl, rest.drop nl.length)
    else ([], url)
  let (url, fragment) :=
    match splitAtChar '#' url with
    | some (a, b) => (a, b)
    | none => (url, [])
  let (url, query) :=
    match splitAtChar '?' url with
    | some (a, b) => (a, b)
    | none => (url, [])
  ⟨String.mk schemeL, String.mk netloc, String.mk url, String.mk query, String.mk fragment⟩

def urlsplitD (u : String) (defaultScheme : String) : SplitResult :=
  urlsplitL defaultScheme.data u.data

def urlsplit (u : String) : SplitResult := urlsplitD u ""

def usesNetloc : List String :=
  ["", "ftp", "http", "gopher", "nntp", "telnet", "imap", "wais", "file", "mms",
   "https", "shttp", "snews", "prospero", "rtsp", "rtspu", "rsync", "svn",
   "svn+ssh", "sftp", "nfs", "git", "git+ssh", "ws", "wss"]

def usesRelative : List String :=
  ["", "ftp", "http", "gopher", "nntp", "imap", "wais", "file", "https", "shttp",
   "mms", "prospero", "rtsp", "rtspu", "sftp", "svn", "svn+ssh", "ws", "wss"]

def usesParams : List String :=
  ["", "ftp", "hdl", "prospero", "http", "imap", "https", "shttp", "rtsp",
   "rtspu", "sip", "sips", "mms", "sftp", "tel"]

def urlunsplit (c : SplitResult) : String :=
  let url₁ :=
    if c.netloc ≠ "" ∨ (c.scheme ≠ "" ∧ usesNetloc.contains c.scheme ∧ c.path.data.take 2 ≠ ['/', '/']) then
      let u := if c.path ≠ "" ∧ c.path.data.take 1 ≠ ['/'] then "/" ++ c.path else c.path
      "//" ++ c.netloc ++ u
    else c.path
  let url₂ := if c.scheme ≠ "" then c.scheme ++ ":" ++ url₁ else url₁
  let url₃ := if c.query ≠ "" then url₂ ++ "?" ++ c.query else url₂
  if c.fragment ≠ "" then url₃ ++ "#" ++ c.fragment else url₃

/-- `posixpath.normpath` (pure-Python reference implementation). -/
def normpath (p : String) : String :=
  if p = "" then "." else
  let slashes : Nat :=
    if p.data.take 1 = ['/'] then
      if p.data.take 2 = ['/', '/'] ∧ p.data.take 3 ≠ ['/', '/', '/'] then 2 else 1
    else 0
  let comps := splitAll '/' p.data
  let newComps := comps.foldl (fun acc comp =>
    if comp = [] ∨ comp = ['.'] then acc
    else if comp ≠ ['.', '.'] ∨ (slashes = 0 ∧ acc = []) ∨ acc.getLast? = some ['.', '.'] then
      acc ++ [comp]
    else acc.dropLast) []
  let joined := String.mk (List.replicate slashes '/' ++ joinWith '/' newComps)
  if joined = "" then "." else joined

structure ParseResult where
  scheme : String
  netloc : String
  path : String
  params : String
  query : String
  fragment : String
deriving Repr, DecidableEq, Inhabited

def rfindChar (c : Char) (l : List Char) : Option Nat :=
  (splitAtChar c l.reverse).map (fun p => l.length - 1 - p.1.length)

def findCharFrom (c : Char) (l : List Char) (start : Nat) : Option Nat :=
  (splitAtChar c (l.drop start)).map (fun p => start + p.1.length)

/-- CPython `_splitparams`. -/
def splitparams (url : String) : String × String :=
  let l := url.data
  let i? : Option Nat :=
    match rfindChar '/' l with
    | some j => findCharFrom ';' l j
    | none => (splitAtChar ';' l).map (fun p => p.1.length)
  match i? with
  | none => (url, "")
  | some i => (String.mk (l.take i), String.mk (l.drop (i + 1)))

def urlparseD (u : String) (defaultScheme : String) : ParseResult :=
  let s := urlsplitD u defaultScheme
  let (path, params) :=
    if usesParams.contains s.scheme ∧ strIn ";" s.path then splitparams s.path
    else (s.path, "")
  ⟨s.scheme, s.netloc, path, params, s.query, s.fragment⟩

def urlunparse (c : ParseResult) : String :=
  let url := if c.params ≠ "" then c.path ++ ";" ++ c.params else c.path
  urlunsplit ⟨c.scheme, c.netloc, url, c.query, c.fragment⟩

/-- CPython `urljoin` (3.x reference implementation, `allow_fragments = True`). -/
def urljoin (base url : String) : String :=
  if base = "" then url
  else if url = "" then base
  else
    let b := urlparseD base ""
    let r := urlparseD url b.scheme
    if r.scheme ≠ b.scheme ∨ ¬ usesRelative.contains r.scheme then url
    else
      let keepNetloc := usesNetloc.contains r.scheme ∧ r.netloc ≠ ""
      if keepNetloc then urlunparse r
      else
        let netloc := if usesNetloc.contains r.scheme then b.netloc else r.netloc
        if r.path = "" ∧ r.params = "" then
          let query := if r.query = "" then b.query else r.query
          urlunparse ⟨r.scheme, netloc, b.path, b.params, query, r.fragment⟩
        else
          let baseParts₀ := splitAll '/' b.path.data
          let baseParts :=
            if baseParts₀.getLast? ≠ some [] then baseParts₀.dropLast else baseParts₀
          let segments :=
            if r.path.data.take 1 = ['/'] then splitAll '/' r.path.data
            else
              let segs := baseParts ++ splitAll '/' r.path.data
              match segs with
              | [] => []
              | [x] => [x]
              | x :: rest =>
                x :: ((rest.dropLast.filter (fun s => ¬ s.isEmpty)) ++ rest.getLast?.toList)
          let resolved := segments.foldl (fun acc seg =>
            if seg = ['.', '.'] then acc.dropLast
            else if seg = ['.'] then acc
            else acc ++ [seg]) []
          let resolved :=
            if segments.getLast? = some ['.'] ∨ segments.getLast? = some ['.', '.'] then
              resolved ++ [[]]
            else resolved
          let path := String.mk (joinWith '/' resolved)
          let path := if path = "" then "/" else path
          urlunparse ⟨r.scheme, netloc, path, r.params, r.query, r.fragment⟩

/-! ## The program's own URL helpers (`norm_url`, `is_same_origin`, `absolutize`) -/

/-- `norm_url` from the source: normalize the path (removing `..`/`.`), drop the
fragment, lower-case the netloc, keep a trailing slash that `normpath` dropped. -/
def norm_url (u : String) : String :=
  let s := urlsplit u
  let path := normpath s.path
  let path := if endsW s.path "/" ∧ ¬ endsW path "/" then path ++ "/" else path
  urlunsplit ⟨s.scheme, lowerStr s.netloc, path, s.query, ""⟩

/-- Modelled from the spec (§3 CanonicalURL), for comparison with `norm_url`:
"a URL normalized by: removing the fragment, lower-casing the authority,
collapsing `.`/`..` path segments, preserving a trailing slash iff the original
path had a meaningful trailing slash and the normalized path would otherwise
drop it". -/
def canonicalizeSpec (u : String) : String :=
  let s := urlsplit u
  let collapsed := normpath s.path
  let keepSlash := endsW s.path "/" ∧ ¬ endsW collapsed "/"
  urlunsplit
    { scheme := s.scheme
      netloc := lowerStr s.netloc
      path := collapsed ++ (if keepSlash then "/" else "")
      query := s.query
      fragment := "" }

def is_same_origin (a b : String) (followSubdomains : Bool) : Bool :=
  let sa := urlsplit a
  let sb := urlsplit b
  if sa.scheme ≠ sb.scheme then false
  else if sa.netloc = sb.netloc then true
  else followSubdomains && endsW sb.netloc ("." ++ sa.netloc)

/-- `ABS_URL_RE.match(href)` — `^https?://`, case-insensitive. -/
def absUrlMatch (href : String) : Bool :=
  startsW (lowerStr href) "http://" || startsW (lowerStr href) "https://"

def absolutize (base : String) (href : Option String) : Option String :=
  match href with
  | none => none
  | some h =>
    if h = "" then none
    else if startsW h "data:" ∨ startsW h "javascript:" ∨ startsW h "about:" ∨ startsW h "#" then
      none
    else if startsW h "//" then
      some ((urlsplit base).scheme ++ ":" ++ h)
    else if absUrlMatch h then some h
    else some (urljoin base h)

/-! ## Content model

A fetched body is modelled structurally: `CssItem` has one constructor per
regex match of `CSS_URL_RE` / `AT_IMPORT_RE` plus opaque text in between, so a
stylesheet is the list of its matches and inter-match text and the raw byte
string of any body is `serializeItems` of its item list.  `urlRef q h` stands
for the match `url(<q><h><q>)` (`q` the quote group), `importRef q h` for
`@import url(<q><h><q>);`, `importStrRef h` for the quoted form
`@import "<h>";` (which contains no `url(...)` match). -/

inductive CssItem where
  | txt (s : String)
  | urlRef (q : String) (h : String)
  | importRef (q : String) (h : String)
  | importStrRef (h : String)
deriving Repr, DecidableEq

def serializeItem : CssItem → String
  | .txt s => s
  | .urlRef q h => "url(" ++ q ++ h ++ q ++ ")"
  | .importRef q h => "@import url(" ++ q ++ h ++ q ++ ");"
  | .importStrRef h => "@import \"" ++ h ++ "\";"

def serializeItems (l : List CssItem) : String :=
  String.mk ((l.map (fun i => (serializeItem i).data)).flatten)

structure Fetched where
  ctype : Option String
  items : List CssItem
deriving Repr, DecidableEq

/-- The external collaborators: the HTTP transport (a finite URL → response
map; absent key = transport failure), `mimetypes.guess_extension`, and the
sha1 digest used for synthetic names. -/
structure Env where
  pages : List (String × Fetched)
  mimeExt : String → Option String
  urlHash : String → String

/-- The build state threaded through every component: the asset map
(canonical URL → bundle-relative path), the written files of the bundle
(path → text), and the log of attempted network fetches, in order. -/
structure St where
  asset_map : List (String × String)
  files : List (String × String)
  fetchLog : List String
deriving Repr, DecidableEq

def lookupL {α : Type} : List (String × α) → String → Option α
  | [], _ => none
  | p :: rest, k => if p.1 = k then some p.2 else lookupL rest k

/-- `write_file`: create or truncate-and-overwrite. -/
def writeFileL : List (String × String) → String → String → List (String × String)
  | [], p, v => [(p, v)]
  | e :: rest, p, v => if e.1 = p then (p, v) :: rest else e :: writeFileL rest p v

/-- `fetch`: one `session.get` attempt, always logged; `none` models any
transport failure (timeout, connection error, non-2xx). -/
def fetch (env : Env) (st : St) (url : String) : Option Fetched × St :=
  (lookupL env.pages url, { st with fetchLog := st.fetchLog ++ [url] })

/-! ## `guess_ext`, filenames, destination folders -/

def splitext (p : String) : String × String :=
  let l := p.data
  let sepIdx : Int := match rfindChar '/' l with | some n => (n : Int) | none => -1
  let dotIdx : Int := match rfindChar '.' l with | some n => (n : Int) | none => -1
  if sepIdx < dotIdx then
    let nameStart := (sepIdx + 1).toNat
    let d := dotIdx.toNat
    if (List.range (d - nameStart)).all (fun k => l.get? (nameStart + k) = some '.') then (p, "")
    else (String.mk (l.take d), String.mk (l.drop d))
  else (p, "")

def basenameStr (p : String) : String :=
  match rfindChar '/' p.data with
  | some i => String.mk (p.data.drop (i + 1))
  | none => p

def guess_ext (env : Env) (contentType : Option String) (fallbackUrl : String) : String :=
  let fromUrl := if fallbackUrl ≠ "" then (splitext (urlsplit fallbackUrl).path).2 else ""
  match contentType with
  | some c =>
    if c ≠ "" then
      let ct := lowerStr (trimStr (String.mk (c.data.takeWhile (fun x => x ≠ ';'))))
      if (ct = "text/xml" ∨ ct = "application/xml") ∧ endsW (lowerStr fallbackUrl) ".svg" then ".svg"
      else (env.mimeExt ct).getD ""
    else fromUrl
  | none => fromUrl

def mediaDir : String := "assets/media"
def faviconDir : String := "assets/media/favicon"
def imagesDir : String := "assets/media/uploads/images"

def collideLoop (files : List (String × String)) (destDir stem suffix : String) : Nat → Nat → String
  | 0, i => stem ++ "_" ++ toString i ++ suffix
  | k + 1, i =>
    let cand := stem ++ "_" ++ toString i ++ suffix
    if (lookupL files (destDir ++ "/" ++ cand)).isSome then
      collideLoop files destDir stem suffix k (i + 1)
    else cand

/-- The `while local_path.exists()` collision loop (`files.length + 1` rounds
always suffice: there are more candidate names than existing files). -/
def chooseName (files : List (String × String)) (destDir base : String) : String :=
  if (lookupL files (destDir ++ "/" ++ base)).isSome then
    let se := splitext base
    collideLoop files destDir se.1 se.2 (files.length + 1) 1
  else base

/-- Lines 180–204 of the source: destination-folder classification
(favicon-name → favicon folder, `image/*` content type → images folder, else
generic media), filename derivation (URL basename, hash-synthesized when
empty, content-type extension appended when missing) and the collision loop;
returns the chosen bundle-relative path. -/
def destPath (env : Env) (files : List (String × String)) (cu : String) (ctype : Option String) :
    String :=
  let ext := guess_ext env ctype cu
  let nameLower := lowerStr (basenameStr (urlsplit cu).path)
  let destDir :=
    if strIn "favicon" nameLower ∨ strIn "apple-touch-icon" nameLower ∨ strIn "mstile" nameLower then
      faviconDir
    else if startsW (ctype.getD "") "image/" then imagesDir
    else mediaDir
  let base₀ := basenameStr (urlsplit cu).path
  let base :=
    if base₀ = "" then "asset_" ++ env.urlHash cu ++ ext
    else if ext ≠ "" ∧ ¬ endsW (lowerStr base₀) ext then base₀ ++ ext
    else base₀
  destDir ++ "/" ++ chooseName files destDir base

/-! ## `map_asset` and `rewrite_css_urls`

The source functions recurse into each other (a localized stylesheet is
immediately rewritten, and rewriting localizes every referenced URL), with the
cache-insертion before the rewrite as the only cycle breaker.  The embedding
takes a fuel argument that strictly decreases on every call; `none` means
"fuel exhausted" and `missingCost_suffices` below shows the bound used by the
total wrappers never returns `none`.  `rewrite_css_urls` reproduces the two
regex passes of the source: first every `@import` match is substituted
(`AT_IMPORT_RE.sub`), then every `url(...)` match of the *resulting* text is
substituted (`CSS_URL_RE.sub`) — so the text a successful import substitution
introduces is itself scanned by the second pass, exactly as in the source. -/

mutual

def map_asset : Nat → Env → St → String → Option (Option String × St)
  | 0, _, _, _ => none
  | n + 1, env, st, absUrl => map_assetC n env st (norm_url absUrl)
termination_by structural n _ _ _ => n

def map_assetC : Nat → Env → St → String → Option (Option String × St)
  | 0, _, _, _ => none
  | n + 1, env, st, absUrl =>
    match lookupL st.asset_map absUrl with
    | some rel => some (some rel, st)
    | none =>
      match fetch env st absUrl with
      | (none, st₁) => some (none, st₁)
      | (some data, st₁) =>
        let localPath := destPath env st₁.files absUrl data.ctype
        let st₂ := { st₁ with files := writeFileL st₁.files localPath (serializeItems data.items) }
        let rel := localPath
        let st₃ := { st₂ with asset_map := st₂.asset_map ++ [(absUrl, rel)] }
        if startsW (lowerStr (data.ctype.getD "")) "text/css" ∨ lowerStr (splitext localPath).2 = ".css" then
          match rewrite_css_urls n env st₃ absUrl data.items with
          | none => none
          | some (cssText, st₄) =>
            some (some rel, { st₄ with files := writeFileL st₄.files localPath cssText })
        else
          some (some rel, st₃)
termination_by structural n _ _ _ => n

/-- Pass 1: `AT_IMPORT_RE.sub(import_repl, css_text)`.  A successful import
substitution yields the text `@import url('../../<m>');`, represented by the
three items that the second pass will see (its `url(...)` part is a
`CSS_URL_RE` match). -/
def importPass : Nat → Env → St → String → List CssItem → List CssItem → Option (List CssItem × St)
  | _, _, st, _, [], acc => some (acc, st)
  | 0, _, _, _, _ :: _, _ => none
  | n + 1, env, st, baseUrl, item :: rest, acc =>
    match item with
    | .txt s => importPass n env st baseUrl rest (acc ++ [.txt s])
    | .urlRef q h => importPass n env st baseUrl rest (acc ++ [.urlRef q h])
    | .importRef q h =>
      match absolutize baseUrl (some h) with
      | none => importPass n env st baseUrl rest (acc ++ [.importRef q h])
      | some absu =>
        match map_asset n env st absu with
        | none => none
        | some (none, st') => importPass n env st' baseUrl rest (acc ++ [.importRef q h])
        | some (some m, st') =>
          importPass n env st' baseUrl rest
            (acc ++ [.txt "@import ", .urlRef "'" ("../../" ++ m), .txt ";"])
    | .importStrRef h =>
      match absolutize baseUrl (some h) with
      | none => importPass n env st baseUrl rest (acc ++ [.importStrRef h])
      | some absu =>
        match map_asset n env st absu with
        | none => none
        | some (none, st') => importPass n env st' baseUrl rest (acc ++ [.importStrRef h])
        | some (some m, st') =>
          importPass n env st' baseUrl rest
            (acc ++ [.txt "@import ", .urlRef "'" ("../../" ++ m), .txt ";"])
termination_by structural n _ _ _ _ _ => n

/-- Pass 2: `CSS_URL_RE.sub(url_repl, css_text)` on the text pass 1 produced.
An `importRef` that survived pass 1 still contains a `url(...)` match, which
this pass rewrites inside the import syntax. -/
def urlPass : Nat → Env → St → String → List CssItem → String → Option (String × St)
  | _, _, st, _, [], acc => some (acc, st)
  | 0, _, _, _, _ :: _, _ => none
  | n + 1, env, st, baseUrl, item :: rest, acc =>
    match item with
    | .txt s => urlPass n env st baseUrl rest (acc ++ s)
    | .importStrRef h => urlPass n env st baseUrl rest (acc ++ serializeItem (.importStrRef h))
    | .urlRef q h =>
      match absolutize baseUrl (some h) with
      | none => urlPass n env st baseUrl rest (acc ++ serializeItem (.urlRef q h))
      | some absu =>
        match map_asset n env st absu with
        | none => none
        | some (none, st') => urlPass n env st' baseUrl rest (acc ++ serializeItem (.urlRef q h))
        | some (some m, st') => urlPass n env st' baseUrl rest (acc ++ "url('../../" ++ m ++ "')")
    | .importRef q h =>
      match absolutize baseUrl (some h) with
      | none => urlPass n env st baseUrl rest (acc ++ serializeItem (.importRef q h))
      | some absu =>
        match map_asset n env st absu with
        | none => none
        | some (none, st') => urlPass n env st' baseUrl rest (acc ++ serializeItem (.importRef q h))
        | some (some m, st') =>
          urlPass n env st' baseUrl rest (acc ++ "@import url('../../" ++ m ++ "');")
termination_by structural n _ _ _ _ _ => n

def rewrite_css_urls : Nat → Env → St → String → List CssItem → Option (String × St)
  | 0, _, _, _, _ => none
  | n + 1, env, st, baseUrl, items =>
    match importPass n env st baseUrl items [] with
    | none => none
    | some (items₁, st₁) => urlPass n env st₁ baseUrl items₁ ""
termination_by structural n _ _ _ _ => n

end

/-- The fuel bound, over an explicit page list: each URL the transport could
still serve and that is not yet in the asset map can cost at most
`6·(its item count) + 3` fuel. -/
def mcList (ps : List (String × Fetched)) (am : List (String × String)) : Nat :=
  (ps.map (fun p => if (lookupL am p.1).isNone then 6 * p.2.items.length + 3 else 0)).sum

def missingCost (env : Env) (st : St) : Nat := mcList env.pages st.asset_map

/-- Total `map_asset`: runs the fuelled embedding with the provably
sufficient bound (`missingCost_suffices`). -/
def map_assetT (env : Env) (st : St) (u : String) : Option String × St :=
  match map_asset (missingCost env st + 2) env st u with
  | some r => r
  | none => (none, st)

/-! ## Head consolidation (`consolidate_head_assets`) -/

/-- A direct child element of `<head>`: `otherEl` is any tag other than
`link`/`style`/`script`, carrying (opaquely) whatever style/script text is
nested inside it — the source keeps such elements untouched. -/
inductive HeadEl where
  | linkEl (rels : List String) (href : Option String)
  | styleEl (text : String)
  | scriptEl (src : Option String) (typ : String) (text : String)
  | otherEl (tag : String) (innerCss : List String) (innerJs : List String)
deriving Repr, DecidableEq

structure CAcc where
  sawCss : Bool
  sawJs : Bool
  cssPre : List String
  cssExt : List String
  cssPost : List String
  jsPre : List String
  jsExt : List String
  jsPost : List String
  extraScripts : List String
  st : St
deriving Repr, DecidableEq

def iconRels : List String := ["icon", "shortcut", "apple-touch-icon", "mask-icon"]

def textyTypes : List String :=
  ["", "text/javascript", "application/javascript", "module", "text/ecmascript",
   "application/ecmascript"]

/-- One loop iteration of `consolidate_head_assets` over a head child; returns
the updated accumulator and the elements kept in the tree (`[]` models
`el.decompose()`). -/
def consStep (env : Env) (baseUrl : String) (a : CAcc) (el : HeadEl) : CAcc × List HeadEl :=
  match el with
  | .linkEl rels href =>
    let relsL := rels.map lowerStr
    if relsL.contains "stylesheet" ∧ (href.getD "") ≠ "" then
      match absolutize baseUrl href with
      | none => (a, [])
      | some absu =>
        match map_assetT env a.st absu with
        | (none, st') => ({ a with st := st' }, [])
        | (some mapped, st') =>
          let cssText := (lookupL st'.files mapped).getD ""
          ({ a with cssExt := a.cssExt ++ [cssText], sawCss := true, st := st' }, [])
    else if relsL.any (fun r => iconRels.contains r) then
      if (href.getD "") ≠ "" then
        match absolutize baseUrl href with
        | none => (a, [el])
        | some absu =>
          match map_assetT env a.st absu with
          | (none, st') => ({ a with st := st' }, [el])
          | (some mapped, st') => ({ a with st := st' }, [.linkEl rels (some mapped)])
      else (a, [el])
    else (a, [el])
  | .styleEl text =>
    if a.sawCss then ({ a with cssPost := a.cssPost ++ [text] }, [])
    else ({ a with cssPre := a.cssPre ++ [text] }, [])
  | .scriptEl src typ text =>
    let typL := lowerStr typ
    if (src.getD "") ≠ "" then
      match absolutize baseUrl src with
      | none => (a, [])
      | some absu =>
        match fetch env a.st absu with
        | (none, st₁) => ({ a with st := st₁ }, [])
        | (some data, st₁) =>
          let mime := lowerStr (data.ctype.getD "")
          let isTexty :=
            strIn "javascript" mime ∨ startsW mime "text/" ∨ textyTypes.contains typL
          if isTexty then
            let jsText := serializeItems data.items
            let a₁ :=
              if a.sawJs then { a with jsPost := a.jsPost ++ [jsText] }
              else { a with jsPre := a.jsPre ++ [jsText] }
            ({ a₁ with jsExt := a₁.jsExt ++ [jsText], sawJs := true, st := st₁ }, [])
          else
            match map_assetT env st₁ absu with
            | (some mapped, st₂) =>
              ({ a with extraScripts := a.extraScripts ++ [mapped], sawJs := true, st := st₂ }, [])
            | (none, st₂) => ({ a with sawJs := true, st := st₂ }, [])
    else
      if a.sawJs then ({ a with jsPost := a.jsPost ++ [text] }, [])
      else ({ a with jsPre := a.jsPre ++ [text] }, [])
  | .otherEl _ _ _ => (a, [el])

def consFold (env : Env) (baseUrl : String) : CAcc → List HeadEl → CAcc × List HeadEl
  | a, [] => (a, [])
  | a, el :: rest =>
    let s := consStep env baseUrl a el
    let r := consFold env baseUrl s.1 rest
    (r.1, s.2 ++ r.2)

def initAcc (st : St) : CAcc := ⟨false, false, [], [], [], [], [], [], [], st⟩

structure ConsOut where
  cssFinal : String
  jsFinal : String
  extraScripts : List String
  kept : List HeadEl
  headAfter : List HeadEl
  acc : CAcc
deriving Repr, DecidableEq

def consolidate_head_assets (env : Env) (baseUrl : String) (st : St) (head : List HeadEl) :
    ConsOut :=
  let r := consFold env baseUrl (initAcc st) head
  let a := r.1
  let cssFinal := joinSep "\n\n" (a.cssPre ++ a.cssExt ++ a.cssPost)
  let jsFinal := joinSep "\n\n" (a.jsPre ++ a.jsExt ++ a.jsPost)
  let headAfter :=
    r.2 ++ [HeadEl.linkEl ["stylesheet"] (some "assets/css/styles.css"),
            HeadEl.scriptEl (some "assets/js/main.js") "" ""]
  ⟨cssFinal, jsFinal, a.extraScripts, r.2, headAfter, a⟩

/-! ## Body reference rewriting (`map_attr`, `rewrite_srcset`, the three
`find_all` passes of `process_single_page`) -/

structure Tag where
  kind : String
  attrs : List (String × String)
deriving Repr, DecidableEq

def getAttr (t : Tag) (k : String) : Option String := lookupL t.attrs k

def setAttr (t : Tag) (k v : String) : Tag := { t with attrs := writeFileL t.attrs k v }

def map_attr (env : Env) (finalUrl : String) (st : St) (t : Tag) (attr : String) : Tag × St :=
  match absolutize finalUrl (getAttr t attr) with
  | none => (t, st)
  | some absu =>
    match map_assetT env st absu with
    | (some mapped, st') => (setAttr t attr mapped, st')
    | (none, st') => (t, st')

/-- `SRCSET_SPLIT_RE.split(value.strip())`: splitting on `\s*,\s*` equals
splitting on `,` and trimming each piece (after the outer strip). -/
def srcsetSplit (value : String) : List String :=
  (splitAll ',' (trimStr value).data).map (fun l => trimStr (String.mk l))

/-- The loop body of `rewrite_srcset` for one comma-separated part. -/
def srcsetPartStep (env : Env) (baseUrl : String) (p : List String × St) (part : String) :
    List String × St :=
  if part = "" then p
  else
    match strWords (trimStr part) with
    | [] => p
    | urlPart :: descToks =>
      let descriptor := joinSep " " descToks
      match absolutize baseUrl (some urlPart) with
      | none => (p.1 ++ [part], p.2)
      | some absu =>
        match map_assetT env p.2 absu with
        | (none, st₂) => (p.1 ++ [part], st₂)
        | (some mapped, st₂) => (p.1 ++ [trimStr (mapped ++ " " ++ descriptor)], st₂)

def rewrite_srcset (env : Env) (baseUrl : String) (st : St) (value : String) : String × St :=
  let parts := if value ≠ "" then srcsetSplit value else []
  let r := parts.foldl (srcsetPartStep env baseUrl) ([], st)
  (joinSep ", " r.1, r.2)

def statefulMap (f : St → Tag → Tag × St) : St → List Tag → List Tag × St
  | st, [] => ([], st)
  | st, t :: rest =>
    let r := f st t
    let r' := statefulMap f r.2 rest
    (r.1 :: r'.1, r'.2)

def srcSrcsetStep (env : Env) (finalUrl : String) (kinds : List String) (st : St) (t : Tag) :
    Tag × St :=
  if kinds.contains t.kind then
    let r :=
      if (getAttr t "src").getD "" ≠ "" then map_attr env finalUrl st t "src" else (t, st)
    if (getAttr r.1 "srcset").getD "" ≠ "" then
      let v := rewrite_srcset env finalUrl r.2 ((getAttr r.1 "srcset").getD "")
      (setAttr r.1 "srcset" v.1, v.2)
    else r
  else (t, st)

def posterStep (env : Env) (finalUrl : String) (st : St) (t : Tag) : Tag × St :=
  if t.kind = "video" ∧ (getAttr t "poster").getD "" ≠ "" then
    map_attr env finalUrl st t "poster"
  else (t, st)

def processBody (env : Env) (finalUrl : String) (st : St) (body : List Tag) : List Tag × St :=
  let p₁ := statefulMap (srcSrcsetStep env finalUrl ["img", "iframe"]) st body
  let p₂ := statefulMap (srcSrcsetStep env finalUrl ["source"]) p₁.2 p₁.1
  let p₃ := statefulMap (posterStep env finalUrl) p₂.2 p₂.1
  p₃

structure Doc where
  head : List HeadEl
  body : List Tag
deriving Repr, DecidableEq

structure PageOut where
  headAfter : List HeadEl
  body : List Tag
  cssFinal : String
  jsFinal : String
  st : St
deriving Repr, DecidableEq

/-- `process_single_page` (the `<base>` removal and HTML serialization are
outside the modelled core; the initial page fetch is the given `doc`). -/
def process_single_page (env : Env) (finalUrl : String) (doc : Doc) : PageOut :=
  let st0 : St := ⟨[], [], []⟩
  let co := consolidate_head_assets env finalUrl st0 doc.head
  let pb := processBody env finalUrl co.acc.st doc.body
  let headAfter := co.headAfter ++ co.extraScripts.map (fun s => HeadEl.scriptEl (some s) "" "")
  let stFinal :=
    { pb.2 with
      files := writeFileL (writeFileL pb.2.files "assets/css/styles.css" co.cssFinal)
        "assets/js/main.js" co.jsFinal }
  ⟨headAfter, pb.1, co.cssFinal, co.jsFinal, stFinal⟩

/-! ## Crawl scheduler (`prefetch_assets_via_crawl`) -/

structure PageDoc where
  links : List (Option String)
  imgSrcs : List (Option String)
  iframeSrcs : List (Option String)
  sourceSrcs : List (Option String)
  videoPosters : List (Option String)
  srcsets : List String
deriving Repr, DecidableEq

/-- Crawl collaborators: the page transport and the robots oracle
(`robots_allows`, spec §1 treats `robots.txt` parsing as an oracle). -/
structure CrawlEnv where
  pages : List (String × PageDoc)
  robots : String → Bool

structure Opts where
  maxPages : Nat
  followSubdomains : Bool
  restrictPath : Option String
  respectRobots : Bool

structure CrawlSt where
  visited : List String
  toVisit : List String
  pagesCount : Nat
  pageLog : List String
  st : St
deriving Repr, DecidableEq

def prefetchSrc (env : Env) (pageUrl : String) (st : St) (srcs : List (Option String)) : St :=
  srcs.foldl
    (fun s v =>
      match absolutize pageUrl v with
      | some absu => (map_assetT env s absu).2
      | none => s) st

def prefetchSrcset (env : Env) (pageUrl : String) (st : St) (values : List String) : St :=
  values.foldl
    (fun s v =>
      (splitAll ',' v.data).foldl
        (fun s' partL =>
          let part := String.mk partL
          if trimStr part = "" then s'
          else
            match strWords (trimStr part) with
            | [] => s'
            | p :: _ =>
              match absolutize pageUrl (some p) with
              | some absu => (map_assetT env s' absu).2
              | none => s') s) st

def prefetchMedia (env : Env) (pageUrl : String) (st : St) (doc : PageDoc) : St :=
  let s₁ := prefetchSrc env pageUrl st doc.imgSrcs
  let s₂ := prefetchSrc env pageUrl s₁ doc.iframeSrcs
  let s₃ := prefetchSrc env pageUrl s₂ doc.sourceSrcs
  let s₄ := prefetchSrc env pageUrl s₃ doc.videoPosters
  prefetchSrcset env pageUrl s₄ doc.srcsets

/-- `opts.restrict_path_prefix and not urlsplit(url).path.startswith(...)`
(an absent or empty restriction is falsy and blocks nothing). -/
def restrictBlocks (restrictPath : Option String) (url : String) : Bool :=
  match restrictPath with
  | some pre => if pre = "" then false else ¬ startsW (urlsplit url).path pre
  | none => false

/-- The BFS loop of `prefetch_assets_via_crawl` (lines 481–520), translated
check for check.  Note the source never adds anything to `state.visited`. -/
def crawl_loop (fuel : Nat) (env : Env) (cenv : CrawlEnv) (opts : Opts) (start : String)
    (cs : CrawlSt) : CrawlSt :=
  match fuel with
  | 0 => cs
  | n + 1 =>
    match cs.toVisit with
    | [] => cs
    | url :: rest =>
      if cs.pagesCount < opts.maxPages then
        let cs₁ := { cs with toVisit := rest }
        if cs₁.visited.contains url then crawl_loop n env cenv opts start cs₁
        else if ¬ is_same_origin start url opts.followSubdomains then
          crawl_loop n env cenv opts start cs₁
        else if restrictBlocks opts.restrictPath url then crawl_loop n env cenv opts start cs₁
        else if opts.respectRobots ∧ ¬ cenv.robots url then crawl_loop n env cenv opts start cs₁
        else
          match lookupL cenv.pages url with
          | none => crawl_loop n env cenv opts start cs₁
          | some doc =>
            let cs₂ :=
              { cs₁ with pagesCount := cs₁.pagesCount + 1, pageLog := cs₁.pageLog ++ [url] }
            let newQ := doc.links.foldl
              (fun q href =>
                match absolutize url href with
                | some a => q ++ [norm_url a]
                | none => q) cs₂.toVisit
            let st' := prefetchMedia env url cs₂.st doc
            crawl_loop n env cenv opts start { cs₂ with toVisit := newQ, st := st' }
      else cs

/-- `prefetch_assets_via_crawl`: first the full single-page pass for the start
URL, then the BFS with a *fresh* `State` (fresh asset map, line 476). -/
def prefetch_assets_via_crawl (env : Env) (cenv : CrawlEnv) (opts : Opts) (startUrl : String)
    (startDoc : Doc) (fuel : Nat) : PageOut × CrawlSt :=
  let po := process_single_page env startUrl startDoc
  let cs0 : CrawlSt := ⟨[], [norm_url startUrl], 0, [], ⟨[], [], []⟩⟩
  (po, crawl_loop fuel env cenv opts (norm_url startUrl) cs0)

/-! ## Observation helpers used by the statements -/

/-- How many times `k` occurs in a fetch log. -/
def countStr (l : List String) (k : String) : Nat := (l.filter (fun x => x = k)).length

/-- The asset map only ever gains entries: every binding of `st` is still a
binding of `st'`. -/
def mapLe (st st' : St) : Prop :=
  ∀ k v, lookupL st.asset_map k = some v → lookupL st'.asset_map k = some v

/-- Filesystem semantics of a relative reference written inside a file:
resolve `ref` against the containing directory `dirSegs` (each `..` pops one
directory, `.` and empty segments are no-ops).  This is the spec-side meaning
of "resolves, relative to the emitting stylesheet's own final location". -/
def resolveRel (dirSegs : List String) (ref : String) : String :=
  let out := (splitAll '/' ref.data).foldl
    (fun (acc : List String) seg =>
      if seg = ['.', '.'] then acc.dropLast
      else if seg = ['.'] ∨ seg = [] then acc
      else acc ++ [String.mk seg]) dirSegs
  joinSep "/" out

/-- The directory (segment list) holding a bundle path. -/
def dirSegsOf (p : String) : List String :=
  ((splitAll '/' p.data).dropLast).map (fun l => String.mk l)

/-! ## Concrete witness material: oracles, environments, scenario documents -/

def mimeO : String → Option String
  | "text/css" => some ".css"
  | "image/png" => some ".png"
  | "application/javascript" => some ".js"
  | _ => none

def hashO : String → String := fun _ => "0123456789ab"

def st0 : St := ⟨[], [], []⟩

/-- C2 scenario: one external stylesheet whose (pure-text) body is `T`. -/
def envCss (T : String) : Env :=
  ⟨[("https://ex.com/b.css", ⟨some "text/css", [.txt T]⟩)], mimeO, hashO⟩

def headABC (A C : String) : List HeadEl :=
  [.styleEl A, .linkEl ["stylesheet"] (some "https://ex.com/b.css"), .styleEl C]

/-- C1 failing input: a single text-like external script with body `x`. -/
def envJs : Env :=
  ⟨[("https://ex.com/s.js", ⟨some "application/javascript", [.txt "x"]⟩)], mimeO, hashO⟩

def headOneScript : List HeadEl := [.scriptEl (some "https://ex.com/s.js") "" ""]

/-- C7 failing input: a stylesheet whose basename contains `favicon` (so the
store files it under `assets/media/favicon/`) referencing an image. -/
def envFav : Env :=
  ⟨[("https://ex.com/favicon.css", ⟨some "text/css", [.urlRef "" "x.png"]⟩),
    ("https://ex.com/x.png", ⟨some "image/png", [.txt "PNG"]⟩)], mimeO, hashO⟩

/-- C9 witness: two stylesheets importing each other cyclically. -/
def envCyc : Env :=
  ⟨[("https://ex.com/a.css", ⟨some "text/css", [.importRef "" "https://ex.com/b9.css"]⟩),
    ("https://ex.com/b9.css", ⟨some "text/css", [.importRef "" "https://ex.com/a.css"]⟩)],
   mimeO, hashO⟩

/-- An environment in which every fetch fails. -/
def envNone : Env := ⟨[], mimeO, hashO⟩

/-- An environment holding one image. -/
def envImg : Env := ⟨[("https://ex.com/a.png", ⟨some "image/png", [.txt "P"]⟩)], mimeO, hashO⟩

/-- C3 failing input: the start page links to itself. -/
def selfUrl : String := "https://site.test/"

def cenvSelf : CrawlEnv := ⟨[(selfUrl, ⟨[some selfUrl], [], [], [], [], []⟩)], fun _ => true⟩

def optsTwo : Opts := ⟨2, false, none, true⟩

/-- C4 counterexample input: crawl mode where the start page body and a
crawled page both reference the same image. -/
def cenvShared : CrawlEnv :=
  ⟨[(selfUrl, ⟨[], [some "https://ex.com/a.png"], [], [], [], []⟩)], fun _ => true⟩

def docImg : Doc := ⟨[], [⟨"img", [("src", "https://ex.com/a.png")]⟩]⟩

/-- The state after `map_asset` has successfully localized `envImg`'s image. -/
def stImgDone : St :=
  ⟨[("https://ex.com/a.png", "assets/media/uploads/images/a.png")],
   [("assets/media/uploads/images/a.png", "P")], ["https://ex.com/a.png"]⟩

/-- A state whose asset map already holds one record. -/
def stHit : St := ⟨[("https://ex.com/z.png", "assets/media/z.png")], [], []⟩

def tagNoData : Tag := ⟨"img", []⟩

def tagMiss : Tag := ⟨"img", [("src", "https://ex.com/m.png")]⟩

/-- The state after one failed fetch of `https://ex.com/m.png`. -/
def stMissLog : St := ⟨[], [], ["https://ex.com/m.png"]⟩

/-! ## Lemmas and claim theorems -/

theorem lookupL_append_some {α : Type} (l e : List (String × α)) (k : String) (v : α)
    (h : lookupL l k = some v) : lookupL (l ++ e) k = some v := by
  induction l with
  | nil => simp [lookupL] at h
  | cons p rest ih =>
    simp only [lookupL, List.cons_append] at h ⊢
    split at h
    · simp [*]
    · simp only [*]
      exact ih h

theorem lookupL_append_fresh {α : Type} (l : List (String × α)) (k : String) (v : α)
    (h : lookupL l k = none) : lookupL (l ++ [(k, v)]) k = some v := by
  induction l with
  | nil => simp [lookupL]
  | cons p rest ih =>
    simp only [lookupL, List.cons_append] at h ⊢
    split at h
    · exact absurd h (by simp)
    · simp only [*]
      exact ih h

theorem mapLe_refl (st : St) : mapLe st st := fun _ _ h => h

theorem mapLe_trans {a b c : St} (h₁ : mapLe a b) (h₂ : mapLe b c) : mapLe a c :=
  fun k v h => h₂ k v (h₁ k v h)

theorem mapLe_of_eq {a b : St} (h : a.asset_map = b.asset_map) : mapLe a b := by
  intro k v hk
  rw [← h]
  exact hk

theorem mapLe_append (a : St) (e : List (String × String)) :
    mapLe a { a with asset_map := a.asset_map ++ e } := by
  intro k v h
  exact lookupL_append_some _ _ _ _ h

theorem monoPack : ∀ n : Nat,
    (∀ env st u res st', map_asset n env st u = some (res, st') → mapLe st st') ∧
    (∀ env st cu res st', map_assetC n env st cu = some (res, st') → mapLe st st') ∧
    (∀ env st b items acc its st', importPass n env st b items acc = some (its, st') → mapLe st st') ∧
    (∀ env st b items acc txt st', urlPass n env st b items acc = some (txt, st') → mapLe st st') ∧
    (∀ env st b items txt st', rewrite_css_urls n env st b items = some (txt, st') → mapLe st st') := by
  intro n
  induction n with
  | zero =>
    refine ⟨?_, ?_, ?_, ?_, ?_⟩
    · intro env st u res st' h
      simp [map_asset] at h
    · intro env st cu res st' h
      simp [map_assetC] at h
    · intro env st b items acc its st' h
      cases items with
      | nil =>
        simp [importPass] at h
        exact mapLe_of_eq (by rw [h.2])
      | cons i rest => simp [importPass] at h
    · intro env st b items acc txt st' h
      cases items with
      | nil =>
        simp [urlPass] at h
        exact mapLe_of_eq (by rw [h.2])
      | cons i rest => simp [urlPass] at h
    · intro env st b items txt st' h
      simp [rewrite_css_urls] at h
  | succ n ih =>
    obtain ⟨ihA, ihC, ihI, ihU, ihR⟩ := ih
    refine ⟨?_, ?_, ?_, ?_, ?_⟩
    · intro env st u res st' h
      simp only [map_asset] at h
      exact ihC _ _ _ _ _ h
    · intro env st cu res st' h
      simp only [map_assetC, fetch] at h
      split at h
      · rename_i rel hrel
        injection h with h'
        rw [Prod.mk.injEq] at h'
        exact mapLe_of_eq (by rw [h'.2])
      · rename_i hmiss
        split at h
        · rename_i st₁ hfetch
          rw [Prod.mk.injEq] at hfetch
          injection h with h'
          rw [Prod.mk.injEq] at h'
          exact mapLe_of_eq (by rw [← h'.2, ← hfetch.2])
        · rename_i data st₁ hfetch
          rw [Prod.mk.injEq] at hfetch
          obtain ⟨-, hf2⟩ := hfetch
          subst hf2
          split at h
          · split at h
            · simp at h
            · rename_i cssText st₄ hrw2
              injection h with h'
              rw [Prod.mk.injEq] at h'
              rw [← h'.2]
              intro k v hv
              exact ihR _ _ _ _ _ _ hrw2 k v (lookupL_append_some _ _ _ _ hv)
          · injection h with h'
            rw [Prod.mk.injEq] at h'
            rw [← h'.2]
            intro k v hv
            exact lookupL_append_some _ _ _ _ hv
    · intro env st b items acc its st' h
      cases items with
      | nil =>
        simp only [importPass, Option.some.injEq, Prod.mk.injEq] at h
        exact mapLe_of_eq (by rw [h.2])
      | cons i rest =>
        cases i with
        | txt s =>
          simp only [importPass] at h
          exact ihI _ _ _ _ _ _ _ h
        | urlRef q hr =>
          simp only [importPass] at h
          exact ihI _ _ _ _ _ _ _ h
        | importRef q hr =>
          simp only [importPass] at h
          split at h
          · exact ihI _ _ _ _ _ _ _ h
          · split at h
            · simp at h
            · rename_i st₁ hma
              exact mapLe_trans (ihA _ _ _ _ _ hma) (ihI _ _ _ _ _ _ _ h)
            · rename_i m st₁ hma
              exact mapLe_trans (ihA _ _ _ _ _ hma) (ihI _ _ _ _ _ _ _ h)
        | importStrRef hr =>
          simp only [importPass] at h
          split at h
          · exact ihI _ _ _ _ _ _ _ h
          · split at h
            · simp at h
            · rename_i st₁ hma
              exact mapLe_trans (ihA _ _ _ _ _ hma) (ihI _ _ _ _ _ _ _ h)
            · rename_i m st₁ hma
              exact mapLe_trans (ihA _ _ _ _ _ hma) (ihI _ _ _ _ _ _ _ h)
    · intro env st b items acc txt st' h
      cases items with
      | nil =>
        simp only [urlPass, Option.some.injEq, Prod.mk.injEq] at h
        exact mapLe_of_eq (by rw [h.2])
      | cons i rest =>
        cases i with
        | txt s =>
          simp only [urlPass] at h
          exact ihU _ _ _ _ _ _ _ h
        | importStrRef hr =>
          simp only [urlPass] at h
          exact ihU _ _ _ _ _ _ _ h
        | urlRef q hr =>
          simp only [urlPass] at h
          split at h
          · exact ihU _ _ _ _ _ _ _ h
          · split at h
            · simp at h
            · rename_i st₁ hma
              exact mapLe_trans (ihA _ _ _ _ _ hma) (ihU _ _ _ _ _ _ _ h)
            · rename_i m st₁ hma
              exact mapLe_trans (ihA _ _ _ _ _ hma) (ihU _ _ _ _ _ _ _ h)
        | importRef q hr =>
          simp only [urlPass] at h
          split at h
          · exact ihU _ _ _ _ _ _ _ h
          · split at h
            · simp at h
            · rename_i st₁ hma
              exact mapLe_trans (ihA _ _ _ _ _ hma) (ihU _ _ _ _ _ _ _ h)
            · rename_i m st₁ hma
              exact mapLe_trans (ihA _ _ _ _ _ hma) (ihU _ _ _ _ _ _ _ h)
    · intro env st b items txt st' h
      simp only [rewrite_css_urls] at h
      split at h
      · simp at h
      · rename_i items₁ st₁ hip
        exact mapLe_trans (ihI _ _ _ _ _ _ _ hip) (ihU _ _ _ _ _ _ _ h)

theorem countStr_append (l m : List String) (k : String) :
    countStr (l ++ m) k = countStr l k + countStr m k := by
  simp [countStr, List.filter_append]

theorem countStr_single_ne (x k : String) (h : ¬ x = k) : countStr [x] k = 0 := by
  simp [countStr, h]

theorem isSome_of_mapLe {st st' : St} (h : mapLe st st') (k : String)
    (hk : (lookupL st.asset_map k).isSome) : (lookupL st'.asset_map k).isSome := by
  obtain ⟨v, hv⟩ := Option.isSome_iff_exists.mp hk
  exact Option.isSome_iff_exists.mpr ⟨v, h k v hv⟩

theorem countPack : ∀ n : Nat,
    (∀ env st u res st' k, (lookupL st.asset_map k).isSome →
        map_asset n env st u = some (res, st') → countStr st'.fetchLog k = countStr st.fetchLog k) ∧
    (∀ env st cu res st' k, (lookupL st.asset_map k).isSome →
        map_assetC n env st cu = some (res, st') → countStr st'.fetchLog k = countStr st.fetchLog k) ∧
    (∀ env st b items acc its st' k, (lookupL st.asset_map k).isSome →
        importPass n env st b items acc = some (its, st') →
        countStr st'.fetchLog k = countStr st.fetchLog k) ∧
    (∀ env st b items acc txt st' k, (lookupL st.asset_map k).isSome →
        urlPass n env st b items acc = some (txt, st') →
        countStr st'.fetchLog k = countStr st.fetchLog k) ∧
    (∀ env st b items txt st' k, (lookupL st.asset_map k).isSome →
        rewrite_css_urls n env st b items = some (txt, st') →
        countStr st'.fetchLog k = countStr st.fetchLog k) := by
  intro n
  induction n with
  | zero =>
    refine ⟨?_, ?_, ?_, ?_, ?_⟩
    · intro env st u res st' k hk h
      simp [map_asset] at h
    · intro env st cu res st' k hk h
      simp [map_assetC] at h
    · intro env st b items acc its st' k hk h
      cases items with
      | nil =>
        simp [importPass] at h
        rw [h.2]
      | cons i rest => simp [importPass] at h
    · intro env st b items acc txt st' k hk h
      cases items with
      | nil =>
        simp [urlPass] at h
        rw [h.2]
      | cons i rest => simp [urlPass] at h
    · intro env st b items txt st' k hk h
      simp [rewrite_css_urls] at h
  | succ n ih =>
    obtain ⟨ihA, ihC, ihI, ihU, ihR⟩ := ih
    refine ⟨?_, ?_, ?_, ?_, ?_⟩
    · intro env st u res st' k hk h
      simp only [map_asset] at h
      exact ihC _ _ _ _ _ _ hk h
    · intro env st cu res st' k hk h
      simp only [map_assetC, fetch] at h
      split at h
      · rename_i rel hrel
        injection h with h'
        rw [Prod.mk.injEq] at h'
        rw [← h'.2]
      · rename_i hmiss
        have hne : ¬ cu = k := by
          intro he
          rw [← he] at hk
          rw [hmiss] at hk
          simp at hk
        split at h
        · rename_i st₁ hfetch
          rw [Prod.mk.injEq] at hfetch
          obtain ⟨-, hf2⟩ := hfetch
          subst hf2
          injection h with h'
          rw [Prod.mk.injEq] at h'
          rw [← h'.2]
          simp [countStr_append, countStr_single_ne _ _ hne]
        · rename_i data st₁ hfetch
          rw [Prod.mk.injEq] at hfetch
          obtain ⟨-, hf2⟩ := hfetch
          subst hf2
          have hk₃ : (lookupL ((⟨st.asset_map, st.files, st.fetchLog ++ [cu]⟩ : St).asset_map
              ++ [(cu, destPath env st.files cu data.ctype)]) k).isSome := by
            obtain ⟨v, hv⟩ := Option.isSome_iff_exists.mp hk
            exact Option.isSome_iff_exists.mpr ⟨v, lookupL_append_some _ _ _ _ hv⟩
          split at h
          · split at h
            · simp at h
            · rename_i cssText st₄ hrw2
              injection h with h'
              rw [Prod.mk.injEq] at h'
              rw [← h'.2]
              have := ihR _ _ _ _ _ _ _ hk₃ hrw2
              simp only [countStr_append, countStr_single_ne _ _ hne] at this ⊢
              omega
          · injection h with h'
            rw [Prod.mk.injEq] at h'
            rw [← h'.2]
            simp [countStr_append, countStr_single_ne _ _ hne]
    · intro env st b items acc its st' k hk h
      cases items with
      | nil =>
        simp only [importPass, Option.some.injEq, Prod.mk.injEq] at h
        rw [h.2]
      | cons i rest =>
        cases i with
        | txt s =>
          simp only [importPass] at h
          exact ihI _ _ _ _ _ _ _ _ hk h
        | urlRef q hr =>
          simp only [importPass] at h
          exact ihI _ _ _ _ _ _ _ _ hk h
        | importRef q hr =>
          simp only [importPass] at h
          split at h
          · exact ihI _ _ _ _ _ _ _ _ hk h
          · split at h
            · simp at h
            · rename_i st₁ hma
              rw [ihI _ _ _ _ _ _ _ _ (isSome_of_mapLe ((monoPack n).1 _ _ _ _ _ hma) k hk) h]
              exact ihA _ _ _ _ _ _ hk hma
            · rename_i m st₁ hma
              rw [ihI _ _ _ _ _ _ _ _ (isSome_of_mapLe ((monoPack n).1 _ _ _ _ _ hma) k hk) h]
              exact ihA _ _ _ _ _ _ hk hma
        | importStrRef hr =>
          simp only [importPass] at h
          split at h
          · exact ihI _ _ _ _ _ _ _ _ hk h
          · split at h
            · simp at h
            · rename_i st₁ hma
              rw [ihI _ _ _ _ _ _ _ _ (isSome_of_mapLe ((monoPack n).1 _ _ _ _ _ hma) k hk) h]
              exact ihA _ _ _ _ _ _ hk hma
            · rename_i m st₁ hma
              rw [ihI _ _ _ _ _ _ _ _ (isSome_of_mapLe ((monoPack n).1 _ _ _ _ _ hma) k hk) h]
              exact ihA _ _ _ _ _ _ hk hma
    · intro env st b items acc txt st' k hk h
      cases items with
      | nil =>
        simp only [urlPass, Option.some.injEq, Prod.mk.injEq] at h
        rw [h.2]
      | cons i rest =>
        cases i with
        | txt s =>
          simp only [urlPass] at h
          exact ihU _ _ _ _ _ _ _ _ hk h
        | importStrRef hr =>
          simp only [urlPass] at h
          exact ihU _ _ _ _ _ _ _ _ hk h
        | urlRef q hr =>
          simp only [urlPass] at h
          split at h
          · exact ihU _ _ _ _ _ _ _ _ hk h
          · split at h
            · simp at h
            · rename_i st₁ hma
              rw [ihU _ _ _ _ _ _ _ _ (isSome_of_mapLe ((monoPack n).1 _ _ _ _ _ hma) k hk) h]
              exact ihA _ _ _ _ _ _ hk hma
            · rename_i m st₁ hma
              rw [ihU _ _ _ _ _ _ _ _ (isSome_of_mapLe ((monoPack n).1 _ _ _ _ _ hma) k hk) h]
              exact ihA _ _ _ _ _ _ hk hma
        | importRef q hr =>
          simp only [urlPass] at h
          split at h
          · exact ihU _ _ _ _ _ _ _ _ hk h
          · split at h
            · simp at h
            · rename_i st₁ hma
              rw [ihU _ _ _ _ _ _ _ _ (isSome_of_mapLe ((monoPack n).1 _ _ _ _ _ hma) k hk) h]
              exact ihA _ _ _ _ _ _ hk hma
            · rename_i m st₁ hma
              rw [ihU _ _ _ _ _ _ _ _ (isSome_of_mapLe ((monoPack n).1 _ _ _ _ _ hma) k hk) h]
              exact ihA _ _ _ _ _ _ hk hma
    · intro env st b items txt st' k hk h
      simp only [rewrite_css_urls] at h
      split at h
      · simp at h
      · rename_i items₁ st₁ hip
        rw [ihU _ _ _ _ _ _ _ _ (isSome_of_mapLe ((monoPack n).2.2.1 _ _ _ _ _ _ _ hip) k hk) h]
        exact ihI _ _ _ _ _ _ _ _ hk hip

theorem countStr_single_eq (k : String) : countStr [k] k = 1 := by
  simp [countStr]

theorem map_assetC_records : ∀ (n : Nat) (env : Env) (st : St) (cu p : String) (st' : St),
    map_assetC n env st cu = some (some p, st') → lookupL st'.asset_map cu = some p := by
  intro n env st cu p st' h
  cases n with
  | zero => simp [map_assetC] at h
  | succ n =>
    simp only [map_assetC, fetch] at h
    split at h
    · rename_i rel hrel
      injection h with h'
      rw [Prod.mk.injEq] at h'
      rw [← h'.2, hrel, Option.some.inj h'.1]
    · rename_i hmiss
      split at h
      · simp at h
      · rename_i data st₁ hfetch
        rw [Prod.mk.injEq] at hfetch
        obtain ⟨-, hf2⟩ := hfetch
        subst hf2
        split at h
        · split at h
          · simp at h
          · rename_i cssText st₄ hrw2
            injection h with h'
            rw [Prod.mk.injEq] at h'
            rw [← h'.2]
            have hfresh := lookupL_append_fresh st.asset_map cu
              (destPath env st.files cu data.ctype) hmiss
            have := (monoPack n).2.2.2.2 _ _ _ _ _ _ hrw2 cu _ hfresh
            rw [this, Option.some.inj h'.1]
        · injection h with h'
          rw [Prod.mk.injEq] at h'
          rw [← h'.2]
          have hfresh := lookupL_append_fresh st.asset_map cu
            (destPath env st.files cu data.ctype) hmiss
          rw [hfresh, Option.some.inj h'.1]

theorem map_asset_records (n : Nat) (env : Env) (st : St) (u p : String) (st' : St)
    (h : map_asset n env st u = some (some p, st')) :
    lookupL st'.asset_map (norm_url u) = some p := by
  cases n with
  | zero => simp [map_asset] at h
  | succ n =>
    simp only [map_asset] at h
    exact map_assetC_records _ _ _ _ _ _ h

theorem map_asset_hit (n : Nat) (env : Env) (st : St) (u p : String)
    (h : lookupL st.asset_map (norm_url u) = some p) :
    map_asset (n + 2) env st u = some (some p, st) := by
  show map_assetC (n + 1) env st (norm_url u) = some (some p, st)
  simp only [map_assetC, h]

theorem map_asset_fresh_count (n : Nat) (env : Env) (st : St) (u : String) (res : Option String)
    (st' : St) (h0 : lookupL st.asset_map (norm_url u) = none)
    (h : map_asset n env st u = some (res, st')) :
    countStr st'.fetchLog (norm_url u) = countStr st.fetchLog (norm_url u) + 1 := by
  cases n with
  | zero => simp [map_asset] at h
  | succ n =>
    simp only [map_asset] at h
    cases n with
    | zero => simp [map_assetC] at h
    | succ n =>
      simp only [map_assetC, fetch] at h
      split at h
      · rename_i rel hrel
        rw [hrel] at h0
        cases h0
      · rename_i hmiss
        split at h
        · rename_i st₁ hfetch
          rw [Prod.mk.injEq] at hfetch
          obtain ⟨-, hf2⟩ := hfetch
          subst hf2
          injection h with h'
          rw [Prod.mk.injEq] at h'
          rw [← h'.2]
          rw [countStr_append, countStr_single_eq]
        · rename_i data st₁ hfetch
          rw [Prod.mk.injEq] at hfetch
          obtain ⟨-, hf2⟩ := hfetch
          subst hf2
          have hfresh := lookupL_append_fresh st.asset_map (norm_url u)
            (destPath env st.files (norm_url u) data.ctype) h0
          split at h
          · split at h
            · simp at h
            · rename_i cssText st₄ hrw2
              injection h with h'
              rw [Prod.mk.injEq] at h'
              rw [← h'.2]
              have hc := (countPack n).2.2.2.2 _ _ _ _ _ _ (norm_url u)
                (Option.isSome_iff_exists.mpr ⟨_, hfresh⟩) hrw2
              rw [hc]
              rw [countStr_append, countStr_single_eq]
          · injection h with h'
            rw [Prod.mk.injEq] at h'
            rw [← h'.2]
            rw [countStr_append, countStr_single_eq]

theorem lookupL_append_ne {α : Type} (l : List (String × α)) (k cu : String) (v : α)
    (h : ¬ k = cu) : lookupL (l ++ [(cu, v)]) k = lookupL l k := by
  induction l with
  | nil =>
    simp only [List.nil_append, lookupL]
    rw [if_neg (fun hh => h hh.symm)]
  | cons p rest ih =>
    simp only [lookupL, List.cons_append]
    split <;> simp [*]

theorem mcList_le (ps : List (String × Fetched)) {am am' : List (String × String)}
    (h : ∀ k v, lookupL am k = some v → lookupL am' k = some v) :
    mcList ps am' ≤ mcList ps am := by
  induction ps with
  | nil => simp [mcList]
  | cons p rest ih =>
    simp only [mcList, List.map_cons, List.sum_cons] at ih ⊢
    refine Nat.add_le_add ?_ ih
    cases hl : lookupL am p.1 with
    | none => split <;> simp
    | some v => simp [h p.1 v hl]

theorem mcList_insert (ps : List (String × Fetched)) (am : List (String × String))
    (cu rel : String) (f : Fetched) (h0 : lookupL am cu = none) (hf : lookupL ps cu = some f) :
    mcList ps (am ++ [(cu, rel)]) + (6 * f.items.length + 3) ≤ mcList ps am := by
  induction ps with
  | nil => simp [lookupL] at hf
  | cons p rest ih =>
    simp only [lookupL] at hf
    simp only [mcList, List.map_cons, List.sum_cons]
    split at hf
    · rename_i hp
      injection hf with hf'
      have hnone : (lookupL am p.1).isNone = true := by rw [hp, h0]; rfl
      have hsome : lookupL (am ++ [(cu, rel)]) p.1 = some rel := by
        rw [hp]
        exact lookupL_append_fresh _ _ _ h0
      rw [if_pos hnone, if_neg (by rw [hsome]; simp), ← hf']
      have htail : mcList rest (am ++ [(cu, rel)]) ≤ mcList rest am :=
        mcList_le rest (fun k v hv => lookupL_append_some _ _ _ _ hv)
      simp only [mcList] at htail
      omega
    · rename_i hp
      have heads : (if (lookupL (am ++ [(cu, rel)]) p.1).isNone then 6 * p.2.items.length + 3 else 0)
          ≤ (if (lookupL am p.1).isNone then 6 * p.2.items.length + 3 else 0) := by
        cases hl : lookupL am p.1 with
        | none => split <;> simp
        | some v => simp [lookupL_append_some _ _ _ _ hl]
      have ht := ih hf
      simp only [mcList] at ht
      omega

theorem importPass_len : ∀ (n : Nat) (env : Env) (st : St) (b : String)
    (items acc its : List CssItem) (st' : St),
    importPass n env st b items acc = some (its, st') → its.length ≤ acc.length + 3 * items.length := by
  intro n
  induction n with
  | zero =>
    intro env st b items acc its st' h
    cases items with
    | nil =>
      simp only [importPass, Option.some.injEq, Prod.mk.injEq] at h
      rw [← h.1]
      omega
    | cons i rest => simp [importPass] at h
  | succ n ih =>
    intro env st b items acc its st' h
    cases items with
    | nil =>
      simp only [importPass, Option.some.injEq, Prod.mk.injEq] at h
      rw [← h.1]
      omega
    | cons i rest =>
      have step : ∀ (st₂ : St) (add : List CssItem), add.length ≤ 3 →
          importPass n env st₂ b rest (acc ++ add) = some (its, st') →
          its.length ≤ acc.length + 3 * (rest.length + 1) := by
        intro st₂ add hadd hh
        have := ih env st₂ b rest (acc ++ add) its st' hh
        simp only [List.length_append] at this
        omega
      cases i with
      | txt s =>
        simp only [importPass] at h
        exact step _ _ (by simp) h
      | urlRef q hr =>
        simp only [importPass] at h
        exact step _ _ (by simp) h
      | importRef q hr =>
        simp only [importPass] at h
        split at h
        · exact step _ _ (by simp) h
        · split at h
          · simp at h
          · exact step _ _ (by simp) h
          · exact step _ _ (by simp) h
      | importStrRef hr =>
        simp only [importPass] at h
        split at h
        · exact step _ _ (by simp) h
        · split at h
          · simp at h
          · exact step _ _ (by simp) h
          · exact step _ _ (by simp) h

theorem mapLe_count (ps : List (String × Fetched)) {st st' : St} (h : mapLe st st') :
    mcList ps st'.asset_map ≤ mcList ps st.asset_map :=
  mcList_le ps (fun k v hv => h k v hv)

theorem suffPack : ∀ n : Nat,
    (∀ env st u, missingCost env st + 2 ≤ n → (map_asset n env st u).isSome = true) ∧
    (∀ env st cu, missingCost env st + 1 ≤ n → (map_assetC n env st cu).isSome = true) ∧
    (∀ env st b items acc, missingCost env st + 2 * items.length + 1 ≤ n →
      (importPass n env st b items acc).isSome = true) ∧
    (∀ env st b items acc, missingCost env st + 2 * items.length + 1 ≤ n →
      (urlPass n env st b items acc).isSome = true) ∧
    (∀ env st b items, missingCost env st + 6 * items.length + 2 ≤ n →
      (rewrite_css_urls n env st b items).isSome = true) := by
  intro n
  induction n with
  | zero =>
    refine ⟨?_, ?_, ?_, ?_, ?_⟩
    · intro env st u hf
      omega
    · intro env st cu hf
      omega
    · intro env st b items acc hf
      omega
    · intro env st b items acc hf
      omega
    · intro env st b items hf
      omega
  | succ n ih =>
    obtain ⟨ihA, ihC, ihI, ihU, ihR⟩ := ih
    refine ⟨?_, ?_, ?_, ?_, ?_⟩
    · intro env st u hf
      show (map_assetC n env st (norm_url u)).isSome = true
      exact ihC env st _ (by omega)
    · intro env st cu hf
      simp only [map_assetC, fetch]
      split
      · rfl
      · rename_i hmiss
        split
        · rfl
        · rename_i data st₁ hfetch
          rw [Prod.mk.injEq] at hfetch
          obtain ⟨hf1, hf2⟩ := hfetch
          subst hf2
          split
          · split
            · rename_i heq
              have heq' : rewrite_css_urls n env
                  ⟨st.asset_map ++ [(cu, destPath env st.files cu data.ctype)],
                   writeFileL st.files (destPath env st.files cu data.ctype)
                     (serializeItems data.items),
                   st.fetchLog ++ [cu]⟩ cu data.items = none := heq
              have hr := ihR env
                ⟨st.asset_map ++ [(cu, destPath env st.files cu data.ctype)],
                 writeFileL st.files (destPath env st.files cu data.ctype)
                   (serializeItems data.items),
                 st.fetchLog ++ [cu]⟩ cu data.items (by
                  show mcList env.pages (st.asset_map ++ [(cu, destPath env st.files cu data.ctype)])
                      + 6 * data.items.length + 2 ≤ n
                  have hins := mcList_insert env.pages st.asset_map cu
                    (destPath env st.files cu data.ctype) data hmiss hf1
                  have hf' : mcList env.pages st.asset_map + 1 ≤ n + 1 := hf
                  omega)
              rw [heq'] at hr
              simp at hr
            · rfl
          · rfl
    · intro env st b items acc hf
      cases items with
      | nil => rfl
      | cons i rest =>
        have hf' : mcList env.pages st.asset_map + 2 * (rest.length + 1) + 1 ≤ n + 1 := by
          simpa using hf
        cases i with
        | txt s =>
          show (importPass n env st b rest (acc ++ [CssItem.txt s])).isSome = true
          exact ihI env st b rest _ (by show mcList env.pages st.asset_map + 2 * rest.length + 1 ≤ n; omega)
        | urlRef q hr =>
          show (importPass n env st b rest (acc ++ [CssItem.urlRef q hr])).isSome = true
          exact ihI env st b rest _ (by show mcList env.pages st.asset_map + 2 * rest.length + 1 ≤ n; omega)
        | importRef q hr =>
          simp only [importPass]
          split
          · exact ihI env st b rest _ (by show mcList env.pages st.asset_map + 2 * rest.length + 1 ≤ n; omega)
          · rename_i absu habs
            split
            · rename_i heq
              have hA := ihA env st absu (by show mcList env.pages st.asset_map + 2 ≤ n; omega)
              rw [heq] at hA
              simp at hA
            · rename_i st₁ heq
              have hml := (monoPack n).1 _ _ _ _ _ heq
              exact ihI env st₁ b rest _ (by
                show mcList env.pages st₁.asset_map + 2 * rest.length + 1 ≤ n
                have hle := mapLe_count env.pages hml
                omega)
            · rename_i m st₁ heq
              have hml := (monoPack n).1 _ _ _ _ _ heq
              exact ihI env st₁ b rest _ (by
                show mcList env.pages st₁.asset_map + 2 * rest.length + 1 ≤ n
                have hle := mapLe_count env.pages hml
                omega)
        | importStrRef hr =>
          simp only [importPass]
          split
          · exact ihI env st b rest _ (by show mcList env.pages st.asset_map + 2 * rest.length + 1 ≤ n; omega)
          · rename_i absu habs
            split
            · rename_i heq
              have hA := ihA env st absu (by show mcList env.pages st.asset_map + 2 ≤ n; omega)
              rw [heq] at hA
              simp at hA
            · rename_i st₁ heq
              have hml := (monoPack n).1 _ _ _ _ _ heq
              exact ihI env st₁ b rest _ (by
                show mcList env.pages st₁.asset_map + 2 * rest.length + 1 ≤ n
                have hle := mapLe_count env.pages hml
                omega)
            · rename_i m st₁ heq
              have hml := (monoPack n).1 _ _ _ _ _ heq
              exact ihI env st₁ b rest _ (by
                show mcList env.pages st₁.asset_map + 2 * rest.length + 1 ≤ n
                have hle := mapLe_count env.pages hml
                omega)
    · intro env st b items acc hf
      cases items with
      | nil => rfl
      | cons i rest =>
        have hf' : mcList env.pages st.asset_map + 2 * (rest.length + 1) + 1 ≤ n + 1 := by
          simpa using hf
        cases i with
        | txt s =>
          show (urlPass n env st b rest (acc ++ s)).isSome = true
          exact ihU env st b rest _ (by show mcList env.pages st.asset_map + 2 * rest.length + 1 ≤ n; omega)
        | importStrRef hr =>
          show (urlPass n env st b rest (acc ++ serializeItem (CssItem.importStrRef hr))).isSome = true
          exact ihU env st b rest _ (by show mcList env.pages st.asset_map + 2 * rest.length + 1 ≤ n; omega)
        | urlRef q hr =>
          simp only [urlPass]
          split
          · exact ihU env st b rest _ (by show mcList env.pages st.asset_map + 2 * rest.length + 1 ≤ n; omega)
          · rename_i absu habs
            split
            · rename_i heq
              have hA := ihA env st absu (by show mcList env.pages st.asset_map + 2 ≤ n; omega)
              rw [heq] at hA
              simp at hA
            · rename_i st₁ heq
              have hml := (monoPack n).1 _ _ _ _ _ heq
              exact ihU env st₁ b rest _ (by
                show mcList env.pages st₁.asset_map + 2 * rest.length + 1 ≤ n
                have hle := mapLe_count env.pages hml
                omega)
            · rename_i m st₁ heq
              have hml := (monoPack n).1 _ _ _ _ _ heq
              exact ihU env st₁ b rest _ (by
                show mcList env.pages st₁.asset_map + 2 * rest.length + 1 ≤ n
                have hle := mapLe_count env.pages hml
                omega)
        | importRef q hr =>
          simp only [urlPass]
          split
          · exact ihU env st b rest _ (by show mcList env.pages st.asset_map + 2 * rest.length + 1 ≤ n; omega)
          · rename_i absu habs
            split
            · rename_i heq
              have hA := ihA env st absu (by show mcList env.pages st.asset_map + 2 ≤ n; omega)
              rw [heq] at hA
              simp at hA
            · rename_i st₁ heq
              have hml := (monoPack n).1 _ _ _ _ _ heq
              exact ihU env st₁ b rest _ (by
                show mcList env.pages st₁.asset_map + 2 * rest.length + 1 ≤ n
                have hle := mapLe_count env.pages hml
                omega)
            · rename_i m st₁ heq
              have hml := (monoPack n).1 _ _ _ _ _ heq
              exact ihU env st₁ b rest _ (by
                show mcList env.pages st₁.asset_map + 2 * rest.length + 1 ≤ n
                have hle := mapLe_count env.pages hml
                omega)
    · intro env st b items hf
      simp only [rewrite_css_urls]
      split
      · rename_i heq
        have hip := ihI env st b items [] (by omega)
        rw [heq] at hip
        simp at hip
      · rename_i items₁ st₁ heq
        have hlen := importPass_len n env st b items [] items₁ st₁ heq
        have hml := (monoPack n).2.2.1 _ _ _ _ _ _ _ heq
        refine ihU env st₁ b items₁ "" ?_
        show mcList env.pages st₁.asset_map + 2 * items₁.length + 1 ≤ n
        have hle := mapLe_count env.pages hml
        have hf' : mcList env.pages st.asset_map + 6 * items.length + 2 ≤ n + 1 := hf
        simp only [List.length_nil] at hlen
        omega

theorem map_assetT_eq (env : Env) (st : St) (u : String) :
    map_asset (missingCost env st + 2) env st u = some (map_assetT env st u) := by
  have hs := (suffPack (missingCost env st + 2)).1 env st u (le_refl _)
  obtain ⟨r, hr⟩ := Option.isSome_iff_exists.mp hs
  simp [map_assetT, hr]

/-- C9: localization terminates on every transport environment, including
cyclically importing stylesheets: fuel `missingCost env st + 2` (bounded by
the not-yet-localized URLs the transport can serve) always suffices, and a
re-entrant `map_asset` call for a URL whose record already exists returns the
cached path immediately without recursing — the cache is the cycle breaker. -/
theorem C9_cyclic_imports_terminate_via_cache :
    (∀ (env : Env) (st : St) (u : String) (n : Nat),
      missingCost env st + 2 ≤ n → (map_asset n env st u).isSome = true) ∧
    (∀ (env : Env) (st : St) (u p : String) (n : Nat),
      lookupL st.asset_map (norm_url u) = some p →
      map_asset (n + 2) env st u = some (some p, st)) :=
  ⟨fun env st u n h => (suffPack n).1 env st u h,
   fun env st u p n h => map_asset_hit n env st u p h⟩

/-- Witness for C9 at the cyclic two-stylesheet environment. -/
theorem C9_cyclic_imports_terminate_via_cache_witness :
    missingCost envCyc st0 + 2 ≤ 20 ∧ (map_asset 20 envCyc st0 "https://ex.com/a.css").isSome = true :=
  ⟨by decide, C9_cyclic_imports_terminate_via_cache.1 envCyc st0 "https://ex.com/a.css" 20 (by decide)⟩

/-- C6: localizing a fresh canonical URL successfully and then calling
`map_asset` again on the same URL yields the same relative path and the very
same state (a pure cache hit: no fetch, no store or filesystem change), and
across the two calls the URL is fetched exactly once. -/
theorem C6_localize_idempotent_single_fetch (env : Env) (st : St) (u : String) (p : String) (st₁ : St)
    (h0 : lookupL st.asset_map (norm_url u) = none)
    (h1 : map_assetT env st u = (some p, st₁)) :
    map_assetT env st₁ u = (some p, st₁) ∧
    countStr st₁.fetchLog (norm_url u) = countStr st.fetchLog (norm_url u) + 1 := by
  have he := map_assetT_eq env st u
  rw [h1] at he
  have hrec := map_asset_records _ _ _ _ _ _ he
  constructor
  · have hh := map_asset_hit (missingCost env st₁) env st₁ u p hrec
    have he₁ := map_assetT_eq env st₁ u
    rw [hh] at he₁
    exact (Option.some.inj he₁).symm
  · exact map_asset_fresh_count _ _ _ _ _ _ h0 he

/-- Witness for C6 at a concrete image environment. -/
theorem C6_localize_idempotent_single_fetch_witness :
    map_assetT envImg stImgDone "https://ex.com/a.png"
      = (some "assets/media/uploads/images/a.png", stImgDone) ∧
    countStr stImgDone.fetchLog (norm_url "https://ex.com/a.png")
      = countStr st0.fetchLog (norm_url "https://ex.com/a.png") + 1 :=
  C6_localize_idempotent_single_fetch envImg st0 "https://ex.com/a.png" "assets/media/uploads/images/a.png" stImgDone
    (by rfl) (by rfl)

/-- C4 (amended): within one Asset-Store instance, a canonical URL that has a
record is never fetched again — `map_asset` on it is a pure cache hit
returning the recorded path with the state unchanged — and every successful
localize records its canonical URL, so no *successful* fetch is ever
re-attempted.  (As the counterexample shows, the original claim fails for
*failed* fetches, which create no record and are re-attempted, and for crawl
mode, which uses two separate store instances.) -/
theorem C4_successful_localize_never_refetched :
    (∀ (env : Env) (st : St) (u p : String),
      lookupL st.asset_map (norm_url u) = some p → map_assetT env st u = (some p, st)) ∧
    (∀ (env : Env) (st : St) (u p : String) (st' : St),
      map_assetT env st u = (some p, st') → lookupL st'.asset_map (norm_url u) = some p) := by
  constructor
  · intro env st u p h
    have hh := map_asset_hit (missingCost env st) env st u p h
    have he := map_assetT_eq env st u
    rw [hh] at he
    exact (Option.some.inj he).symm
  · intro env st u p st' h
    have he := map_assetT_eq env st u
    rw [h] at he
    exact map_asset_records _ _ _ _ _ _ he

/-- Witness for C4 at a store already holding a record. -/
theorem C4_successful_localize_never_refetched_witness :
    map_assetT envNone stHit "https://ex.com/z.png" = (some "assets/media/z.png", stHit) :=
  C4_successful_localize_never_refetched.1 envNone stHit "https://ex.com/z.png" "assets/media/z.png" (by rfl)

/-- C8: `norm_url` equals the spec-worded canonicalization (drop the fragment,
lower-case the authority, collapse `.`/`..` segments via `normpath`, preserve
a trailing slash iff the original path ended in `/` and the collapsed path
dropped it), and two URLs with byte-equal canonical forms are the same asset:
`map_asset` behaves identically on them. -/
theorem C8_norm_url_canonicalization :
    (∀ u : String, norm_url u = canonicalizeSpec u) ∧
    (∀ (env : Env) (st : St) (n : Nat) (u v : String),
      norm_url u = norm_url v → map_asset n env st u = map_asset n env st v) := by
  constructor
  · intro u
    unfold norm_url canonicalizeSpec
    have hp : ∀ (c : Prop) (inst : Decidable c) (s : String),
        (if c then s ++ "/" else s) = s ++ if c then "/" else "" := by
      intro c inst s
      split
      · rfl
      · exact (String.append_empty s).symm
    dsimp only
    rw [hp]
  · intro env st n u v h
    cases n with
    | zero => rfl
    | succ n =>
      show map_assetC n env st (norm_url u) = map_assetC n env st (norm_url v)
      rw [h]

/-- Witness for C8 at two spellings of one canonical URL. -/
theorem C8_norm_url_canonicalization_witness :
    norm_url "HTTPS://ExAmple.com/a/./b/../c#frag" = norm_url "https://example.com/a/c" ∧
    map_asset 3 envNone st0 "HTTPS://ExAmple.com/a/./b/../c#frag"
      = map_asset 3 envNone st0 "https://example.com/a/c" :=
  ⟨by rfl, C8_norm_url_canonicalization.2 envNone st0 3 _ _ (by rfl)⟩


theorem consFold_append (env : Env) (b : String) (a : CAcc) (L1 L2 : List HeadEl) :
    consFold env b a (L1 ++ L2) =
      ((consFold env b (consFold env b a L1).1 L2).1,
       (consFold env b a L1).2 ++ (consFold env b (consFold env b a L1).1 L2).2) := by
  induction L1 generalizing a with
  | nil => simp [consFold]
  | cons e rest ih =>
    simp only [List.cons_append, consFold, List.append_eq]
    rw [ih]
    simp [List.append_assoc]

theorem consFold_other (env : Env) (b : String) (a : CAcc) (t : String) (ic ij : List String)
    (L2 : List HeadEl) :
    consFold env b a (HeadEl.otherEl t ic ij :: L2) =
      ((consFold env b a L2).1, HeadEl.otherEl t ic ij :: (consFold env b a L2).2) := by
  simp [consFold, consStep]

theorem statefulMap_get (f : St → Tag → Tag × St) (st : St) (tags : List Tag) (i : Nat) (t : Tag)
    (hget : tags.get? i = some t) (hf : ∀ st', f st' t = (t, st')) :
    (statefulMap f st tags).1.get? i = some t := by
  induction tags generalizing st i with
  | nil => simp at hget
  | cons t₀ rest ih =>
    cases i with
    | zero =>
      simp only [List.get?] at hget
      injection hget with hh
      subst hh
      simp [statefulMap, hf st]
    | succ i =>
      simp only [List.get?] at hget
      simp only [statefulMap]
      simpa using ih (f st t₀).2 i hget

theorem srcSrcsetStep_id (env : Env) (fu : String) (kinds : List String) (st : St) (t : Tag)
    (h : kinds.contains t.kind = false) : srcSrcsetStep env fu kinds st t = (t, st) := by
  unfold srcSrcsetStep
  rw [h]
  rfl

theorem posterStep_id (env : Env) (fu : String) (st : St) (t : Tag)
    (h : ¬ t.kind = "video") : posterStep env fu st t = (t, st) := by
  simp [posterStep, h]

/-- C10: head consolidation is a frame over non-`link`/`style`/`script`
children: inserting any other element (with arbitrary nested style/script
text) anywhere leaves the accumulated groups, consolidated CSS/JS text and
asset state identical and keeps that element unchanged in place; and body
processing leaves every tag that is not `img`/`iframe`/`source`/`video`
(e.g. a body `<style>` or `<script>`) unchanged at its position. -/
theorem C10_head_consolidation_frame :
    (∀ (env : Env) (b : String) (st : St) (L1 L2 : List HeadEl) (t : String) (ic ij : List String),
      (consolidate_head_assets env b st (L1 ++ HeadEl.otherEl t ic ij :: L2)).acc
        = (consolidate_head_assets env b st (L1 ++ L2)).acc ∧
      (consolidate_head_assets env b st (L1 ++ HeadEl.otherEl t ic ij :: L2)).cssFinal
        = (consolidate_head_assets env b st (L1 ++ L2)).cssFinal ∧
      (consolidate_head_assets env b st (L1 ++ HeadEl.otherEl t ic ij :: L2)).jsFinal
        = (consolidate_head_assets env b st (L1 ++ L2)).jsFinal ∧
      (consolidate_head_assets env b st (L1 ++ HeadEl.otherEl t ic ij :: L2)).kept
        = (consFold env b (initAcc st) L1).2 ++ HeadEl.otherEl t ic ij ::
            (consFold env b (consFold env b (initAcc st) L1).1 L2).2) ∧
    (∀ (env : Env) (fu : String) (st : St) (tags : List Tag) (i : Nat) (t : Tag),
      tags.get? i = some t →
      ¬ t.kind = "img" → ¬ t.kind = "iframe" → ¬ t.kind = "source" → ¬ t.kind = "video" →
      (processBody env fu st tags).1.get? i = some t) := by
  constructor
  · intro env b st L1 L2 t ic ij
    have key : consFold env b (initAcc st) (L1 ++ HeadEl.otherEl t ic ij :: L2) =
        ((consFold env b (consFold env b (initAcc st) L1).1 L2).1,
         (consFold env b (initAcc st) L1).2 ++ HeadEl.otherEl t ic ij ::
           (consFold env b (consFold env b (initAcc st) L1).1 L2).2) := by
      rw [consFold_append, consFold_other]
    have key₂ : consFold env b (initAcc st) (L1 ++ L2) =
        ((consFold env b (consFold env b (initAcc st) L1).1 L2).1,
         (consFold env b (initAcc st) L1).2 ++
           (consFold env b (consFold env b (initAcc st) L1).1 L2).2) := by
      rw [consFold_append]
    refine ⟨?_, ?_, ?_, ?_⟩ <;>
      simp only [consolidate_head_assets, key, key₂]
  · intro env fu st tags i t hget h1 h2 h3 h4
    have k1 : (["img", "iframe"] : List String).contains t.kind = false := by
      simp [h1, h2]
    have k2 : (["source"] : List String).contains t.kind = false := by
      simp [h3]
    simp only [processBody]
    refine statefulMap_get _ _ _ i t (statefulMap_get _ _ _ i t (statefulMap_get _ _ _ i t hget
      (fun st' => srcSrcsetStep_id env fu _ st' t k1)) (fun st' => srcSrcsetStep_id env fu _ st' t k2))
      (fun st' => posterStep_id env fu st' t h4)

/-- C5 (amended): body `src`/`poster` attributes, `srcset` URL tokens, and CSS
`url()`/`@import` matches whose resolution or localization fails are left
unchanged in the output; but head `<link rel="stylesheet">` and
`<script src>` elements are always removed from the tree (`el.decompose()`),
succeed or fail, so a failed head reference is dropped rather than
preserved. -/
theorem C5_failure_preserves_references :
    (∀ (env : Env) (fu : String) (st : St) (t : Tag) (attr : String),
      absolutize fu (getAttr t attr) = none → map_attr env fu st t attr = (t, st)) ∧
    (∀ (env : Env) (fu : String) (st : St) (t : Tag) (attr absu : String) (st' : St),
      absolutize fu (getAttr t attr) = some absu → map_assetT env st absu = (none, st') →
      map_attr env fu st t attr = (t, st')) ∧
    (∀ (env : Env) (b : String) (out : List String) (st : St) (part u absu : String)
      (ds : List String) (st₂ : St),
      ¬ part = "" → strWords (trimStr part) = u :: ds → absolutize b (some u) = some absu →
      map_assetT env st absu = (none, st₂) →
      srcsetPartStep env b (out, st) part = (out ++ [part], st₂)) ∧
    (∀ (n : Nat) (env : Env) (st : St) (b q href absu : String) (rest : List CssItem)
      (acc : String) (st' : St),
      absolutize b (some href) = some absu → map_asset n env st absu = some (none, st') →
      urlPass (n + 1) env st b (.urlRef q href :: rest) acc
        = urlPass n env st' b rest (acc ++ ("url(" ++ q ++ href ++ q ++ ")"))) ∧
    (∀ (n : Nat) (env : Env) (st : St) (b q href absu : String) (rest : List CssItem)
      (acc : List CssItem) (st' : St),
      absolutize b (some href) = some absu → map_asset n env st absu = some (none, st') →
      importPass (n + 1) env st b (.importRef q href :: rest) acc
        = importPass n env st' b rest (acc ++ [.importRef q href])) ∧
    (∀ (env : Env) (b : String) (a : CAcc) (rels : List String) (href : String),
      (rels.map lowerStr).contains "stylesheet" = true → ¬ href = "" →
      (consStep env b a (.linkEl rels (some href))).2 = []) ∧
    (∀ (env : Env) (b : String) (a : CAcc) (s typ text : String),
      ¬ s = "" → (consStep env b a (.scriptEl (some s) typ text)).2 = []) := by
  refine ⟨?_, ?_, ?_, ?_, ?_, ?_, ?_⟩
  · intro env fu st t attr h
    simp [map_attr, h]
  · intro env fu st t attr absu st' h1 h2
    simp [map_attr, h1, h2]
  · intro env b out st part u absu ds st₂ hne hw habs hmap
    simp [srcsetPartStep, hne, hw, habs, hmap]
  · intro n env st b q href absu rest acc st' habs hmap
    simp [urlPass, habs, hmap, serializeItem]
  · intro n env st b q href absu rest acc st' habs hmap
    simp [importPass, habs, hmap]
  · intro env b a rels href hrels hne
    have hcond : (rels.map lowerStr).contains "stylesheet" = true ∧
        ((some href).getD "") ≠ "" := ⟨hrels, by simpa using hne⟩
    simp only [consStep, if_pos hcond]
    split
    · rfl
    · split <;> rfl
  · intro env b a s typ text hne
    have hcond : ((some s).getD "") ≠ "" := by simpa using hne
    simp only [consStep, if_pos hcond]
    split
    · rfl
    · split
      · rfl
      · split
        · rfl
        · split <;> rfl

/-- Witness for C5 at concrete failing references. -/
theorem C5_failure_preserves_references_witness :
    map_attr envNone "https://ex.com/" st0 tagNoData "src" = (tagNoData, st0) ∧
    map_attr envNone "https://ex.com/" st0 tagMiss "src" = (tagMiss, stMissLog) ∧
    srcsetPartStep envNone "https://ex.com/" ([], st0) "https://ex.com/m.png 2x"
      = (["https://ex.com/m.png 2x"], stMissLog) ∧
    urlPass 3 envNone st0 "https://ex.com/" [.urlRef "" "https://ex.com/m.png"] ""
      = urlPass 2 envNone stMissLog "https://ex.com/" [] ("" ++ ("url(" ++ "" ++ "https://ex.com/m.png" ++ "" ++ ")")) ∧
    importPass 3 envNone st0 "https://ex.com/" [.importRef "" "https://ex.com/m.png"] []
      = importPass 2 envNone stMissLog "https://ex.com/" [] ([] ++ [.importRef "" "https://ex.com/m.png"]) ∧
    (consStep envNone "https://ex.com/" (initAcc st0)
      (.linkEl ["stylesheet"] (some "https://ex.com/miss.css"))).2 = [] ∧
    (consStep envNone "https://ex.com/" (initAcc st0)
      (.scriptEl (some "https://ex.com/miss.js") "" "")).2 = [] :=
  ⟨C5_failure_preserves_references.1 envNone "https://ex.com/" st0 tagNoData "src" (by rfl),
   C5_failure_preserves_references.2.1 envNone "https://ex.com/" st0 tagMiss "src" "https://ex.com/m.png" stMissLog
     (by rfl) (by rfl),
   C5_failure_preserves_references.2.2.1 envNone "https://ex.com/" [] st0 "https://ex.com/m.png 2x" "https://ex.com/m.png"
     "https://ex.com/m.png" ["2x"] stMissLog (by decide) (by rfl) (by rfl) (by rfl),
   C5_failure_preserves_references.2.2.2.1 2 envNone st0 "https://ex.com/" "" "https://ex.com/m.png" "https://ex.com/m.png"
     [] "" stMissLog (by rfl) (by rfl),
   C5_failure_preserves_references.2.2.2.2.1 2 envNone st0 "https://ex.com/" "" "https://ex.com/m.png" "https://ex.com/m.png"
     [] [] stMissLog (by rfl) (by rfl),
   C5_failure_preserves_references.2.2.2.2.2.1 envNone "https://ex.com/" (initAcc st0) ["stylesheet"] "https://ex.com/miss.css"
     (by decide) (by decide),
   C5_failure_preserves_references.2.2.2.2.2.2 envNone "https://ex.com/" (initAcc st0) "https://ex.com/miss.js" "" ""
     (by decide)⟩

/-- C5 counterexample: a head stylesheet link whose URL fails to fetch (HTTP
failure) is removed from the head — the surviving children are empty and the
final head holds only the two placeholders, so the original reference is *not*
left unchanged in the output, contrary to the claim. -/
theorem C5_counterexample_failed_head_link_removed :
    (consolidate_head_assets envNone "https://ex.com/" st0
      [.linkEl ["stylesheet"] (some "https://ex.com/miss.css")]).kept = [] ∧
    (consolidate_head_assets envNone "https://ex.com/" st0
      [.linkEl ["stylesheet"] (some "https://ex.com/miss.css")]).headAfter
      = [.linkEl ["stylesheet"] (some "assets/css/styles.css"),
         .scriptEl (some "assets/js/main.js") "" ""] := ⟨rfl, rfl⟩

/-- C2: for a head `<style>A</style>`, `<link rel="stylesheet">` (whose fetched
body is the text `T`), `<style>C</style>` in that document order, consolidation
produces pre = `[A]`, external = `[T]`, post = `[C]`, the consolidated CSS text
is `A`, `T`, `C` in that order (joined by blank lines), and that exact text is
what `process_single_page` writes to `assets/css/styles.css`. -/
theorem C2_css_pre_external_post_order (A T C : String) :
    (consolidate_head_assets (envCss T) "https://ex.com/" st0 (headABC A C)).acc.cssPre = [A] ∧
    (consolidate_head_assets (envCss T) "https://ex.com/" st0 (headABC A C)).acc.cssExt = [T] ∧
    (consolidate_head_assets (envCss T) "https://ex.com/" st0 (headABC A C)).acc.cssPost = [C] ∧
    (consolidate_head_assets (envCss T) "https://ex.com/" st0 (headABC A C)).cssFinal =
      joinSep "\n\n" [A, T, C] ∧
    lookupL (process_single_page (envCss T) "https://ex.com/" ⟨headABC A C, []⟩).st.files
      "assets/css/styles.css" = some (joinSep "\n\n" [A, T, C]) :=
  ⟨rfl, rfl, rfl, rfl, rfl⟩

/-- C1 (code bug evaluation): for a head holding one text-like external script
whose body is `x`, the source appends the fetched text both to the pre/post
group and to the external group, so the consolidated `main.js` text is
`x\n\nx` — the external script's text appears twice, not "exactly once" as
the claim (and the module docstring's "consolidated ... preserving natural
execution order") requires. -/
theorem C1_external_js_text_duplicated :
    (consolidate_head_assets envJs "https://ex.com/" st0 headOneScript).acc.jsPre = ["x"] ∧
    (consolidate_head_assets envJs "https://ex.com/" st0 headOneScript).acc.jsExt = ["x"] ∧
    (consolidate_head_assets envJs "https://ex.com/" st0 headOneScript).jsFinal = "x\n\nx" ∧
    ¬ (consolidate_head_assets envJs "https://ex.com/" st0 headOneScript).jsFinal = "x" :=
  ⟨rfl, rfl, rfl, by decide⟩

/-- C3 (code bug evaluation): crawling a page that links to itself with a page
budget of 2 fetches the same canonical URL twice as a page, the `visited` set
stays empty (the source never adds anything to it, so its membership test can
never fire), and the queue still holds the re-queued duplicate — contradicting
"never re-queues or re-visits" and "successfully fetched URLs entering the
visited set". -/
theorem C3_crawl_refetches_and_visited_stays_empty :
    (crawl_loop 6 envNone cenvSelf optsTwo (norm_url selfUrl)
        ⟨[], [norm_url selfUrl], 0, [], st0⟩).pageLog = [selfUrl, selfUrl] ∧
    (crawl_loop 6 envNone cenvSelf optsTwo (norm_url selfUrl)
        ⟨[], [norm_url selfUrl], 0, [], st0⟩).visited = [] ∧
    (crawl_loop 6 envNone cenvSelf optsTwo (norm_url selfUrl)
        ⟨[], [norm_url selfUrl], 0, [], st0⟩).toVisit = [norm_url selfUrl] := ⟨rfl, rfl, rfl⟩

/-- C7 (code bug evaluation): a stylesheet fetched from
`https://ex.com/favicon.css` (basename contains `favicon`, so the store files
it at depth three, `assets/media/favicon/`) referencing `url(x.png)` is
rewritten with the fixed two-levels-up prefix; resolved against the
stylesheet's own folder the reference lands on
`assets/assets/media/uploads/images/x.png`, which is not a file of the bundle
— while the image actually lives at `assets/media/uploads/images/x.png` (where
the same prefix resolved from the consolidated `assets/css/styles.css`
location would correctly point). -/
theorem C7_standalone_stylesheet_prefix_broken :
    (map_assetT envFav st0 "https://ex.com/favicon.css").1
      = some "assets/media/favicon/favicon.css" ∧
    lookupL (map_assetT envFav st0 "https://ex.com/favicon.css").2.files
        "assets/media/favicon/favicon.css"
      = some "url('../../assets/media/uploads/images/x.png')" ∧
    lookupL (map_assetT envFav st0 "https://ex.com/favicon.css").2.asset_map
        (norm_url "https://ex.com/x.png") = some "assets/media/uploads/images/x.png" ∧
    resolveRel (dirSegsOf "assets/media/favicon/favicon.css")
        "../../assets/media/uploads/images/x.png"
      = "assets/assets/media/uploads/images/x.png" ∧
    lookupL (map_assetT envFav st0 "https://ex.com/favicon.css").2.files
        "assets/assets/media/uploads/images/x.png" = none ∧
    resolveRel (dirSegsOf "assets/css/styles.css") "../../assets/media/uploads/images/x.png"
      = "assets/media/uploads/images/x.png" := ⟨rfl, rfl, rfl, rfl, rfl, rfl⟩

/-- C4 counterexample: (i) two `map_asset` calls for the same canonical URL
whose fetch fails produce two network attempts in the same build — a failed
fetch is re-attempted; (ii) in crawl mode the single-page pass and the BFS use
separate Asset Stores (line 476 builds a fresh `State`), so the same canonical
image URL is fetched once per pass, twice in one build. -/
theorem C4_counterexample_refetch_and_split_stores :
    (map_assetT envNone (map_assetT envNone st0 "https://ex.com/a.png").2
        "https://ex.com/a.png").2.fetchLog
      = ["https://ex.com/a.png", "https://ex.com/a.png"] ∧
    countStr ((prefetch_assets_via_crawl envImg cenvShared optsTwo selfUrl docImg 4).1.st.fetchLog
        ++ (prefetch_assets_via_crawl envImg cenvShared optsTwo selfUrl docImg 4).2.st.fetchLog)
      "https://ex.com/a.png" = 2 := ⟨rfl, rfl⟩

/-- Witness for C10 at a concrete head and body. -/
theorem C10_head_consolidation_frame_witness :
    (consolidate_head_assets envNone "https://ex.com/" st0
        ([HeadEl.styleEl "s"] ++ HeadEl.otherEl "meta" ["nested"] [] :: [])).cssFinal
      = (consolidate_head_assets envNone "https://ex.com/" st0
          ([HeadEl.styleEl "s"] ++ [])).cssFinal ∧
    (processBody envNone "https://ex.com/" st0 [⟨"style", [("x", "y")]⟩]).1.get? 0
      = some ⟨"style", [("x", "y")]⟩ :=
  ⟨(C10_head_consolidation_frame.1 envNone "https://ex.com/" st0 [HeadEl.styleEl "s"] [] "meta" ["nested"] []).2.1,
   C10_head_consolidation_frame.2 envNone "https://ex.com/" st0 [⟨"style", [("x", "y")]⟩] 0 ⟨"style", [("x", "y")]⟩
     (by rfl) (by decide) (by decide) (by decide) (by decide)⟩

end USS
